import Mathlib

/-!
Steady-state 2D heat equation, Jacobi relaxation (`src/main.c`).

A shallow embedding of the solver in `main`.

* `double` values are modelled by exact rationals `ℚ`; the statements about `main`, `loopBody`
  and the other definitions without a suffix are statements about the program under exact
  arithmetic.
* The definitions with the suffix `64` are the same program with the result of every `double`
  operation rounded to the nearest binary64 value; they are used where rounding decides a
  statement.
* `int` counters are modelled by `Nat` / `Int` without wrap-around (the counters range over the
  dimensions of two stack arrays, and the iteration counter is only incremented).
* The compile-time constants `M`, `N`, `tolerance` and the four wall temperatures
  (`100.0`, `100.0`, `100.0`, `0.0` in the source) are parameters; `reference` and
  `referenceTolerance` carry the values written in the source.
* The arrays `u` and `w` are uninitialised stack memory when `main` starts; they are modelled by
  arbitrary starting grids `u0` and `w0`.
* Every `#pragma omp for` loop is modelled by its sequential execution in index order.
-/

namespace HeatEquation

/-- A two-dimensional array of temperatures, indexed `[row][col]`. -/
abbrev Grid := Nat → Nat → ℚ

/-- The assignment `g[i][j] = v`. -/
def setCell (g : Grid) (i j : Nat) (v : ℚ) : Grid :=
  fun r c => if r = i ∧ c = j then v else g r c

/-- The loop `for (int i = lo; i < hi; i++) body`, acting on a state of type `σ`. -/
def forLoop {σ : Type} (lo hi : Nat) (body : Nat → σ → σ) (s : σ) : σ :=
  (List.range' lo (hi - lo)).foldl (fun acc i => body i acc) s

/-- The four wall temperatures written by the boundary loops. -/
structure Walls where
  west : ℚ
  east : ℚ
  south : ℚ
  north : ℚ

/-- The wall temperatures of the source: `100.0` west, east and south, `0.0` north. -/
def reference : Walls := { west := 100, east := 100, south := 100, north := 0 }

/-- Walls that all carry the same temperature `V`. -/
def constWalls (V : ℚ) : Walls := { west := V, east := V, south := V, north := V }

/-- The tolerance of the source, `0.001`. -/
def referenceTolerance : ℚ := 1 / 1000

/-- The four boundary loops of `main` (lines 78-101), in source order:
west wall, east wall, south wall, north wall. -/
def initBoundary (M N : Nat) (b : Walls) (w : Grid) : Grid :=
  let w := forLoop 1 (M - 1) (fun i w => setCell w i 0 b.west) w
  let w := forLoop 1 (M - 1) (fun i w => setCell w i (N - 1) b.east) w
  let w := forLoop 0 N (fun j w => setCell w (M - 1) j b.south) w
  let w := forLoop 0 N (fun j w => setCell w 0 j b.north) w
  w

/-- The two summation loops of `main` (lines 103-112), started from the value `mean`. -/
def sumBoundary (M N : Nat) (w : Grid) (mean : ℚ) : ℚ :=
  let mean := forLoop 1 (M - 1) (fun i mean => mean + w i 0 + w i (N - 1)) mean
  let mean := forLoop 0 N (fun j mean => mean + w (M - 1) j + w 0 j) mean
  mean

/-- The divisor `(double)(2*M + 2*N - 4)` of line 116. -/
def boundaryCount (M N : Nat) : ℚ := ((2 * (M : ℤ) + 2 * (N : ℤ) - 4 : ℤ) : ℚ)

/-- The variable `mean` after line 116: `mean = 0.0`, the two summation loops, the division. -/
def boundaryMean (M N : Nat) (w : Grid) : ℚ :=
  sumBoundary M N w 0 / boundaryCount M N

/-- The interior seeding loop (lines 125-131): `w[i][j] = mean` on the interior. -/
def seedInterior (M N : Nat) (mean : ℚ) (w : Grid) : Grid :=
  forLoop 1 (M - 1) (fun i w => forLoop 1 (N - 1) (fun j w => setCell w i j mean) w) w

/-- The grid `w` when the convergence loop is entered: boundary loops, mean, seeding. -/
def initGrid (M N : Nat) (b : Walls) (w0 : Grid) : Grid :=
  let w := initBoundary M N b w0
  let mean := boundaryMean M N w
  seedInterior M N mean w

/-- The copy loop (lines 153-159): `u[i][j] = w[i][j]` over the whole grid. -/
def copyCurrentIntoPrevious (M N : Nat) (w u : Grid) : Grid :=
  forLoop 0 M (fun i u => forLoop 0 N (fun j u => setCell u i j (w i j)) u) u

/-- The stencil loop (lines 162-168):
`w[i][j] = (u[i-1][j] + u[i+1][j] + u[i][j-1] + u[i][j+1]) / 4.0` on the interior. -/
def stencilUpdate (M N : Nat) (u w : Grid) : Grid :=
  forLoop 1 (M - 1) (fun i w => forLoop 1 (N - 1) (fun j w =>
    setCell w i j ((u (i - 1) j + u (i + 1) j + u i (j - 1) + u i (j + 1)) / 4)) w) w

/-- The private partial maximum `my_diff` (lines 175-187), started from `0.0`. -/
def myDiff (M N : Nat) (u w : Grid) : ℚ :=
  forLoop 1 (M - 1) (fun i my_diff => forLoop 1 (N - 1) (fun j my_diff =>
    if my_diff < |w i j - u i j| then |w i j - u i j| else my_diff) my_diff) 0

/-- The critical section (lines 189-195): `if (diff < my_diff) diff = my_diff`. -/
def mergeDiff (diff my_diff : ℚ) : ℚ :=
  if diff < my_diff then my_diff else diff

/-- The max-difference reduction (lines 171-196) with one thread: `diff = 0.0`, the partial
maximum, the critical section. -/
def maxDifference (M N : Nat) (u w : Grid) : ℚ :=
  mergeDiff 0 (myDiff M N u w)

/-- The variables of `main` that the convergence loop reads and writes, with the progress lines
printed so far. -/
structure LoopState where
  u : Grid
  w : Grid
  diff : ℚ
  iterations : Int
  iterations_print : Int
  output : List (Int × ℚ)

/-- The first parallel region of the loop body (lines 149-169): copy, then stencil update. -/
def sweep (M N : Nat) (s : LoopState) : LoopState :=
  let u := copyCurrentIntoPrevious M N s.w s.u
  let w := stencilUpdate M N u s.w
  { s with u := u, w := w }

/-- One execution of the body of the `while` loop (lines 147-205). -/
def loopBody (M N : Nat) (s : LoopState) : LoopState :=
  let s := sweep M N s
  let diff := maxDifference M N s.u s.w
  let iterations := s.iterations + 1
  if iterations = s.iterations_print then
    { s with diff := diff, iterations := iterations,
             output := s.output ++ [(iterations, diff)],
             iterations_print := 2 * s.iterations_print }
  else
    { s with diff := diff, iterations := iterations }

/-- The `while (tolerance <= diff)` loop (line 146), run for at most `fuel` executions of its
body: `some s` when the loop is left in state `s`, `none` when the fuel does not suffice. -/
def whileLoop (M N : Nat) (tolerance : ℚ) : Nat → LoopState → Option LoopState
  | 0, s => if tolerance ≤ s.diff then none else some s
  | fuel + 1, s =>
    if tolerance ≤ s.diff then whileLoop M N tolerance fuel (loopBody M N s) else some s

/-- The state in which the `while` loop is entered (lines 72-144). -/
def initState (M N : Nat) (b : Walls) (tolerance : ℚ) (u0 w0 : Grid) : LoopState :=
  { u := u0, w := initGrid M N b w0, diff := tolerance,
    iterations := 0, iterations_print := 1, output := [] }

/-- The program: initialisation followed by the convergence loop. -/
def main (M N : Nat) (b : Walls) (tolerance : ℚ) (u0 w0 : Grid) (fuel : Nat) :
    Option LoopState :=
  whileLoop M N tolerance fuel (initState M N b tolerance u0 w0)

/-- The state after `k` executions of the loop body. -/
def sweeps (M N : Nat) : Nat → LoopState → LoopState
  | 0, s => s
  | k + 1, s => loopBody M N (sweeps M N k s)

/-- Cell `(r, c)` lies on the boundary of the `M × N` grid. -/
def isBoundary (M N r c : Nat) : Prop :=
  r < M ∧ c < N ∧ (r = 0 ∨ r = M - 1 ∨ c = 0 ∨ c = N - 1)

/-- Cell `(r, c)` is an interior cell of the `M × N` grid. -/
def isInterior (M N r c : Nat) : Prop :=
  1 ≤ r ∧ r ≤ M - 2 ∧ 1 ≤ c ∧ c ≤ N - 2

instance (M N r c : Nat) : Decidable (isBoundary M N r c) := by
  unfold isBoundary; infer_instance

instance (M N r c : Nat) : Decidable (isInterior M N r c) := by
  unfold isInterior; infer_instance

/-- The boundary cells of the `M × N` grid, each listed once. -/
def boundaryCells (M N : Nat) : Finset (Nat × Nat) :=
  (Finset.range M ×ˢ Finset.range N).filter
    (fun p => p.1 = 0 ∨ p.1 = M - 1 ∨ p.2 = 0 ∨ p.2 = N - 1)

/-- The interior cells of the `M × N` grid, each listed once. -/
def interiorCells (M N : Nat) : Finset (Nat × Nat) :=
  Finset.Icc 1 (M - 2) ×ˢ Finset.Icc 1 (N - 2)

/-- The private partial maximum of one thread (lines 175-187): `my_diff = 0.0`, then the rows
that the `#pragma omp for` of line 177 hands to the thread, in the order of the list `rows`,
each scanned over the interior columns. -/
def threadDiff (N : Nat) (u w : Grid) (rows : List Nat) : ℚ :=
  rows.foldl (fun my_diff i => forLoop 1 (N - 1) (fun j my_diff =>
    if my_diff < |w i j - u i j| then |w i j - u i j| else my_diff) my_diff) 0

/-- The max-difference reduction (lines 171-196) with one thread per element of `chunks`:
`diff = 0.0`, every thread computes its partial maximum over its rows, and the threads pass
through the critical section in the order of the list. -/
def parallelMaxDifference (N : Nat) (u w : Grid) (chunks : List (List Nat)) : ℚ :=
  chunks.foldl (fun diff rows => mergeDiff diff (threadDiff N u w rows)) 0

/-- The assignment of line 166 for the single cell `(i, j)`. -/
def stencilCell (u w : Grid) (i j : Nat) : Grid :=
  setCell w i j ((u (i - 1) j + u (i + 1) j + u i (j - 1) + u i (j + 1)) / 4)

/-- The stencil loop (lines 162-168) with the assignments of line 166 carried out in the order
of the list `cells`, as they may be when the rows are shared among several threads. -/
def stencilUpdateInOrder (u w : Grid) (cells : List (Nat × Nat)) : Grid :=
  cells.foldl (fun w p => stencilCell u w p.1 p.2) w

/-! ## The same program in binary64 arithmetic

The definitions above compute with exact rationals. The definitions below round the result of
every `double` operation of the source to the nearest IEEE-754 binary64 value, ties to even,
as the hardware does when `double` expressions are evaluated in binary64. A finite binary64
value is held as the rational number it denotes. Overflow to infinity and NaN are not modelled;
assignments, `fabs` and comparisons are exact and are shared with the definitions above. -/

/-- The number of binary digits of `n`, found in at most `fuel` halvings. -/
def bitLength : Nat → Nat → Nat
  | 0, _ => 0
  | fuel + 1, n => if n = 0 then 0 else bitLength fuel (n / 2) + 1

/-- The binade of a non-zero rational `x`: the integer `e` with `2^e ≤ |x| < 2^(e+1)`. The
difference of the digit counts of numerator and denominator is `e` or `e + 1`. -/
def binade (x : ℚ) : Int :=
  if (2 : ℚ) ^ ((bitLength x.num.natAbs x.num.natAbs : Int) - (bitLength x.den x.den : Int)) ≤ |x|
  then (bitLength x.num.natAbs x.num.natAbs : Int) - (bitLength x.den x.den : Int)
  else (bitLength x.num.natAbs x.num.natAbs : Int) - (bitLength x.den x.den : Int) - 1

/-- The integer nearest to `x`, a tie going to the even neighbour. -/
def roundNearestEven (x : ℚ) : Int :=
  if x - (⌊x⌋ : ℚ) < 1 / 2 then ⌊x⌋
  else if 1 / 2 < x - (⌊x⌋ : ℚ) then ⌊x⌋ + 1
  else if ⌊x⌋ % 2 = 0 then ⌊x⌋ else ⌊x⌋ + 1

/-- The spacing of the binary64 values in the binade of `x`: 53 significant bits, and `2^-1074`
in the subnormal range. -/
def ulp64 (x : ℚ) : ℚ := (2 : ℚ) ^ (max (binade x - 52) (-1074))

/-- The binary64 value nearest to `x`, ties to even: what a `double` operation with the exact
result `x` returns. -/
def roundBinary64 (x : ℚ) : ℚ :=
  if x = 0 then 0 else (roundNearestEven (x / ulp64 x) : ℚ) * ulp64 x

/-- The two summation loops (lines 103-112) in binary64: each `+` of
`mean + w[i][0] + w[i][N-1]` and of `mean + w[M-1][j] + w[0][j]` is rounded. -/
def sumBoundary64 (M N : Nat) (w : Grid) (mean : ℚ) : ℚ :=
  let mean := forLoop 1 (M - 1)
    (fun i mean => roundBinary64 (roundBinary64 (mean + w i 0) + w i (N - 1))) mean
  let mean := forLoop 0 N
    (fun j mean => roundBinary64 (roundBinary64 (mean + w (M - 1) j) + w 0 j)) mean
  mean

/-- The variable `mean` after line 116 in binary64: the rounded sum divided by the count
converted to `double`, the quotient rounded. -/
def boundaryMean64 (M N : Nat) (w : Grid) : ℚ :=
  roundBinary64 (sumBoundary64 M N w 0 / roundBinary64 (boundaryCount M N))

/-- The `double` written `0.1`: the binary64 value nearest to one tenth. -/
def tenth64 : ℚ := roundBinary64 (1 / 10)

/-! ## Loops -/

theorem forLoop_of_le {σ : Type} (lo hi : Nat) (body : Nat → σ → σ) (s : σ) (h : hi ≤ lo) :
    forLoop lo hi body s = s := by
  simp [forLoop, Nat.sub_eq_zero_of_le h]

theorem forLoop_succ {σ : Type} (lo hi : Nat) (body : Nat → σ → σ) (s : σ) (h : lo ≤ hi) :
    forLoop lo (hi + 1) body s = body hi (forLoop lo hi body s) := by
  unfold forLoop
  have e : hi + 1 - lo = (hi - lo) + 1 := by omega
  rw [e, List.range'_1_concat, List.foldl_append]
  simp only [List.foldl_cons, List.foldl_nil]
  congr 1
  omega

/-- Invariant rule for `forLoop`. -/
theorem forLoop_induction {σ : Type} (P : Nat → σ → Prop) (lo hi : Nat) (body : Nat → σ → σ)
    (s : σ) (h : lo ≤ hi) (h0 : P lo s)
    (hstep : ∀ i t, lo ≤ i → i < hi → P i t → P (i + 1) (body i t)) :
    P hi (forLoop lo hi body s) := by
  induction hi with
  | zero =>
    have : lo = 0 := by omega
    subst this
    simpa [forLoop] using h0
  | succ n ih =>
    rcases Nat.lt_or_ge lo (n + 1) with hlt | hge
    · have hle : lo ≤ n := by omega
      rw [forLoop_succ lo n body s hle]
      exact hstep n _ hle (by omega)
        (ih hle (fun i t h1 h2 hp => hstep i t h1 (by omega) hp))
    · have : lo = n + 1 := by omega
      subst this
      rw [forLoop_of_le _ _ _ _ (le_refl _)]
      exact h0

/-- A loop that writes cell `(i, col)` with a value depending on the cell only. -/
theorem forLoop_setCell_col (lo hi col : Nat) (val : Nat → Nat → ℚ) (g : Grid) (r c : Nat) :
    forLoop lo hi (fun i w => setCell w i col (val i col)) g r c
      = if lo ≤ r ∧ r < hi ∧ c = col then val r c else g r c := by
  rcases Nat.lt_or_ge hi lo with hlt | hle
  · rw [forLoop_of_le _ _ _ _ (Nat.le_of_lt hlt)]
    rw [if_neg (by omega)]
  · have key := forLoop_induction
      (fun k (w : Grid) => ∀ r c, w r c = if lo ≤ r ∧ r < k ∧ c = col then val r c else g r c)
      lo hi (fun i w => setCell w i col (val i col)) g hle
      (by intro r c; rw [if_neg (by omega)])
      (by
        intro i t h1 h2 ih r c
        simp only [setCell]
        by_cases hrc : r = i ∧ c = col
        · obtain ⟨rfl, rfl⟩ := hrc
          rw [if_pos ⟨rfl, rfl⟩, if_pos ⟨h1, by omega, rfl⟩]
        · rw [if_neg hrc, ih r c]
          by_cases hc : lo ≤ r ∧ r < i ∧ c = col
          · rw [if_pos hc, if_pos ⟨hc.1, by omega, hc.2.2⟩]
          · rw [if_neg hc, if_neg]
            rintro ⟨a, b, d⟩
            rcases Nat.lt_or_ge r i with h | h
            · exact hc ⟨a, h, d⟩
            · exact hrc ⟨by omega, d⟩)
    exact key r c

/-- A loop that writes cell `(row, j)` with a value depending on the cell only. -/
theorem forLoop_setCell_row (lo hi row : Nat) (val : Nat → Nat → ℚ) (g : Grid) (r c : Nat) :
    forLoop lo hi (fun j w => setCell w row j (val row j)) g r c
      = if r = row ∧ lo ≤ c ∧ c < hi then val r c else g r c := by
  rcases Nat.lt_or_ge hi lo with hlt | hle
  · rw [forLoop_of_le _ _ _ _ (Nat.le_of_lt hlt)]
    rw [if_neg (by omega)]
  · have key := forLoop_induction
      (fun k (w : Grid) => ∀ r c, w r c = if r = row ∧ lo ≤ c ∧ c < k then val r c else g r c)
      lo hi (fun j w => setCell w row j (val row j)) g hle
      (by intro r c; rw [if_neg (by omega)])
      (by
        intro j t h1 h2 ih r c
        simp only [setCell]
        by_cases hrc : r = row ∧ c = j
        · obtain ⟨rfl, rfl⟩ := hrc
          rw [if_pos ⟨rfl, rfl⟩, if_pos ⟨rfl, h1, by omega⟩]
        · rw [if_neg hrc, ih r c]
          by_cases hc : r = row ∧ lo ≤ c ∧ c < j
          · rw [if_pos hc, if_pos ⟨hc.1, hc.2.1, by omega⟩]
          · rw [if_neg hc, if_neg]
            rintro ⟨a, b, d⟩
            rcases Nat.lt_or_ge c j with h | h
            · exact hc ⟨a, b, h⟩
            · exact hrc ⟨a, by omega⟩)
    exact key r c

/-- A doubly nested loop that writes every cell of a rectangle with a value depending on the
cell only. -/
theorem forLoop_setCell_rect (lo1 hi1 lo2 hi2 : Nat) (val : Nat → Nat → ℚ) (g : Grid)
    (r c : Nat) :
    forLoop lo1 hi1 (fun i w => forLoop lo2 hi2 (fun j w => setCell w i j (val i j)) w) g r c
      = if lo1 ≤ r ∧ r < hi1 ∧ lo2 ≤ c ∧ c < hi2 then val r c else g r c := by
  rcases Nat.lt_or_ge hi1 lo1 with hlt | hle
  · rw [forLoop_of_le _ _ _ _ (Nat.le_of_lt hlt)]
    rw [if_neg (by omega)]
  · have key := forLoop_induction
      (fun k (w : Grid) => ∀ r c,
        w r c = if lo1 ≤ r ∧ r < k ∧ lo2 ≤ c ∧ c < hi2 then val r c else g r c)
      lo1 hi1 (fun i w => forLoop lo2 hi2 (fun j w => setCell w i j (val i j)) w) g hle
      (by intro r c; rw [if_neg (by omega)])
      (by
        intro i t h1 h2 ih r c
        show forLoop lo2 hi2 (fun j w => setCell w i j (val i j)) t r c = _
        rw [forLoop_setCell_row lo2 hi2 i val t r c, ih r c]
        by_cases hr : r = i ∧ lo2 ≤ c ∧ c < hi2
        · rw [if_pos hr, if_pos ⟨by omega, by omega, hr.2.1, hr.2.2⟩]
        · rw [if_neg hr]
          by_cases hc : lo1 ≤ r ∧ r < i ∧ lo2 ≤ c ∧ c < hi2
          · rw [if_pos hc, if_pos ⟨hc.1, by omega, hc.2.2⟩]
          · rw [if_neg hc, if_neg]
            rintro ⟨a, b, d, e⟩
            rcases Nat.lt_or_ge r i with h | h
            · exact hc ⟨a, h, d, e⟩
            · exact hr ⟨by omega, d, e⟩)
    exact key r c

/-! ## The grid after each phase, cell by cell -/

theorem initBoundary_apply (M N : Nat) (b : Walls) (w : Grid) (r c : Nat) :
    initBoundary M N b w r c
      = if r = 0 ∧ c < N then b.north
        else if r = M - 1 ∧ c < N then b.south
        else if 1 ≤ r ∧ r < M - 1 ∧ c = N - 1 then b.east
        else if 1 ≤ r ∧ r < M - 1 ∧ c = 0 then b.west
        else w r c := by
  show forLoop 0 N (fun j w => setCell w 0 j b.north) _ r c = _
  rw [forLoop_setCell_row 0 N 0 (fun _ _ => b.north),
    forLoop_setCell_row 0 N (M - 1) (fun _ _ => b.south),
    forLoop_setCell_col 1 (M - 1) (N - 1) (fun _ _ => b.east),
    forLoop_setCell_col 1 (M - 1) 0 (fun _ _ => b.west)]
  simp only [Nat.zero_le, true_and]

theorem seedInterior_apply (M N : Nat) (mean : ℚ) (w : Grid) (r c : Nat) :
    seedInterior M N mean w r c
      = if 1 ≤ r ∧ r < M - 1 ∧ 1 ≤ c ∧ c < N - 1 then mean else w r c := by
  unfold seedInterior
  rw [forLoop_setCell_rect 1 (M - 1) 1 (N - 1) (fun _ _ => mean)]

theorem copyCurrentIntoPrevious_apply (M N : Nat) (w u : Grid) (r c : Nat) :
    copyCurrentIntoPrevious M N w u r c = if r < M ∧ c < N then w r c else u r c := by
  unfold copyCurrentIntoPrevious
  rw [forLoop_setCell_rect 0 M 0 N (fun i j => w i j)]
  simp only [Nat.zero_le, true_and]

theorem stencilUpdate_apply (M N : Nat) (u w : Grid) (r c : Nat) :
    stencilUpdate M N u w r c
      = if 1 ≤ r ∧ r < M - 1 ∧ 1 ≤ c ∧ c < N - 1
        then (u (r - 1) c + u (r + 1) c + u r (c - 1) + u r (c + 1)) / 4
        else w r c := by
  unfold stencilUpdate
  rw [forLoop_setCell_rect 1 (M - 1) 1 (N - 1)
    (fun i j => (u (i - 1) j + u (i + 1) j + u i (j - 1) + u i (j + 1)) / 4)]

/-! ## One execution of the loop body -/

theorem loopBody_u (M N : Nat) (s : LoopState) :
    (loopBody M N s).u = copyCurrentIntoPrevious M N s.w s.u := by
  unfold loopBody sweep
  dsimp only
  split_ifs <;> rfl

theorem loopBody_w (M N : Nat) (s : LoopState) :
    (loopBody M N s).w = stencilUpdate M N (copyCurrentIntoPrevious M N s.w s.u) s.w := by
  unfold loopBody sweep
  dsimp only
  split_ifs <;> rfl

theorem loopBody_diff (M N : Nat) (s : LoopState) :
    (loopBody M N s).diff = maxDifference M N (loopBody M N s).u (loopBody M N s).w := by
  rw [loopBody_u, loopBody_w]
  unfold loopBody sweep
  dsimp only
  split_ifs <;> rfl

theorem loopBody_iterations (M N : Nat) (s : LoopState) :
    (loopBody M N s).iterations = s.iterations + 1 := by
  unfold loopBody sweep
  dsimp only
  split_ifs <;> rfl

/-- Cells outside the interior keep their value of `w` across the loop body. -/
theorem loopBody_w_of_not_interior (M N : Nat) (s : LoopState) (r c : Nat)
    (h : ¬ isInterior M N r c) : (loopBody M N s).w r c = s.w r c := by
  rw [loopBody_w, stencilUpdate_apply, if_neg]
  unfold isInterior at h
  omega

/-- Interior cells of `w` after the loop body, in terms of `w` before it. -/
theorem loopBody_w_of_interior (M N : Nat) (s : LoopState) (r c : Nat)
    (h : isInterior M N r c) :
    (loopBody M N s).w r c
      = (s.w (r - 1) c + s.w (r + 1) c + s.w r (c - 1) + s.w r (c + 1)) / 4 := by
  unfold isInterior at h
  rw [loopBody_w, stencilUpdate_apply, if_pos (by omega)]
  simp only [copyCurrentIntoPrevious_apply]
  rw [if_pos (by omega), if_pos (by omega), if_pos (by omega), if_pos (by omega)]

theorem loopBody_u_apply (M N : Nat) (s : LoopState) (r c : Nat) (hr : r < M) (hc : c < N) :
    (loopBody M N s).u r c = s.w r c := by
  rw [loopBody_u, copyCurrentIntoPrevious_apply, if_pos ⟨hr, hc⟩]

theorem sweeps_w_of_not_interior (M N : Nat) (k : Nat) (s : LoopState) (r c : Nat)
    (h : ¬ isInterior M N r c) : (sweeps M N k s).w r c = s.w r c := by
  induction k with
  | zero => rfl
  | succ k ih =>
    show (loopBody M N (sweeps M N k s)).w r c = _
    rw [loopBody_w_of_not_interior M N _ r c h, ih]

theorem initGrid_of_boundary (M N : Nat) (b : Walls) (w0 : Grid) (r c : Nat)
    (h : isBoundary M N r c) :
    initGrid M N b w0 r c
      = if r = 0 then b.north else if r = M - 1 then b.south
        else if c = N - 1 then b.east else b.west := by
  unfold isBoundary at h
  show seedInterior M N _ (initBoundary M N b w0) r c = _
  rw [seedInterior_apply, if_neg (by omega), initBoundary_apply]
  by_cases h0 : r = 0
  · rw [if_pos ⟨h0, h.2.1⟩, if_pos h0]
  · rw [if_neg (by omega), if_neg h0]
    by_cases h1 : r = M - 1
    · rw [if_pos ⟨h1, h.2.1⟩, if_pos h1]
    · rw [if_neg (by omega), if_neg h1]
      by_cases h2 : c = N - 1
      · rw [if_pos (by omega), if_pos h2]
      · rw [if_neg (by omega), if_neg h2, if_pos (by omega)]

/-! ## The boundary sum -/

/-- An accumulation loop adds up its summands. -/
theorem forLoop_sum (lo hi : Nat) (f g : Nat → ℚ) (a : ℚ) (h : lo ≤ hi) :
    forLoop lo hi (fun i acc => acc + f i + g i) a
      = a + ∑ i in Finset.Ico lo hi, (f i + g i) := by
  have key := forLoop_induction
    (fun k (acc : ℚ) => acc = a + ∑ i in Finset.Ico lo k, (f i + g i))
    lo hi (fun i acc => acc + f i + g i) a h (by simp)
    (by
      intro i t h1 _ ih
      rw [Finset.sum_Ico_succ_top h1, ih]
      ring)
  exact key

theorem sumBoundary_eq (M N : Nat) (w : Grid) (a : ℚ) (hM : 2 ≤ M) :
    sumBoundary M N w a
      = a + ∑ i in Finset.Ico 1 (M - 1), (w i 0 + w i (N - 1))
          + ∑ j in Finset.range N, (w (M - 1) j + w 0 j) := by
  show forLoop 0 N (fun j mean => mean + w (M - 1) j + w 0 j)
    (forLoop 1 (M - 1) (fun i mean => mean + w i 0 + w i (N - 1)) a) = _
  rw [forLoop_sum 0 N (fun j => w (M - 1) j) (fun j => w 0 j) _ (Nat.zero_le _),
    forLoop_sum 1 (M - 1) (fun i => w i 0) (fun i => w i (N - 1)) a (by omega),
    Finset.range_eq_Ico]

/-- The boundary is the disjoint union of the four walls, the corners belonging to the north and
south rows. -/
theorem boundaryCells_eq (M N : Nat) (hM : 2 ≤ M) (hN : 2 ≤ N) :
    boundaryCells M N
      = ((Finset.Ico 1 (M - 1)).image (fun i => (i, 0))
          ∪ (Finset.Ico 1 (M - 1)).image (fun i => (i, N - 1)))
        ∪ ((Finset.range N).image (fun j => (M - 1, j))
          ∪ (Finset.range N).image (fun j => (0, j))) := by
  ext ⟨r, c⟩
  simp only [boundaryCells, Finset.mem_filter, Finset.mem_product, Finset.mem_range,
    Finset.mem_union, Finset.mem_image, Finset.mem_Ico, Prod.mk.injEq]
  constructor
  · rintro ⟨⟨hr, hc⟩, h⟩
    by_cases h0 : r = 0
    · exact Or.inr (Or.inr ⟨c, hc, h0.symm, rfl⟩)
    by_cases h1 : r = M - 1
    · exact Or.inr (Or.inl ⟨c, hc, h1.symm, rfl⟩)
    by_cases h2 : c = 0
    · exact Or.inl (Or.inl ⟨r, ⟨by omega, by omega⟩, rfl, h2.symm⟩)
    · exact Or.inl (Or.inr ⟨r, ⟨by omega, by omega⟩, rfl, by omega⟩)
  · rintro ((⟨i, ⟨h1, h2⟩, rfl, rfl⟩ | ⟨i, ⟨h1, h2⟩, rfl, rfl⟩)
      | (⟨j, h1, rfl, rfl⟩ | ⟨j, h1, rfl, rfl⟩))
    · exact ⟨⟨by omega, by omega⟩, by omega⟩
    · exact ⟨⟨by omega, by omega⟩, by omega⟩
    · exact ⟨⟨by omega, by omega⟩, by omega⟩
    · exact ⟨⟨by omega, by omega⟩, by omega⟩

theorem sum_boundaryCells (M N : Nat) (hM : 2 ≤ M) (hN : 2 ≤ N) (f : Nat × Nat → ℚ) :
    ∑ p in boundaryCells M N, f p
      = ∑ i in Finset.Ico 1 (M - 1), (f (i, 0) + f (i, N - 1))
          + ∑ j in Finset.range N, (f (M - 1, j) + f (0, j)) := by
  rw [boundaryCells_eq M N hM hN, Finset.sum_union, Finset.sum_union, Finset.sum_union,
    Finset.sum_image, Finset.sum_image, Finset.sum_image, Finset.sum_image,
    Finset.sum_add_distrib, Finset.sum_add_distrib]
  · intro a _ b _ h
    simpa using h
  · intro a _ b _ h
    simpa using h
  · intro a _ b _ h
    simpa using h
  · intro a _ b _ h
    simpa using h
  · rw [Finset.disjoint_left]
    rintro ⟨r, c⟩ h1 h2
    simp only [Finset.mem_image, Finset.mem_range, Prod.mk.injEq] at h1 h2
    obtain ⟨j, _, rfl, rfl⟩ := h1
    obtain ⟨j2, _, h3, _⟩ := h2
    omega
  · rw [Finset.disjoint_left]
    rintro ⟨r, c⟩ h1 h2
    simp only [Finset.mem_image, Finset.mem_Ico, Prod.mk.injEq] at h1 h2
    obtain ⟨i, _, rfl, rfl⟩ := h1
    obtain ⟨i2, _, _, h3⟩ := h2
    omega
  · rw [Finset.disjoint_left]
    rintro ⟨r, c⟩ h1 h2
    simp only [Finset.mem_union, Finset.mem_image, Finset.mem_range, Finset.mem_Ico,
      Prod.mk.injEq] at h1 h2
    rcases h1 with ⟨i, hi, rfl, rfl⟩ | ⟨i, hi, rfl, rfl⟩ <;>
      rcases h2 with ⟨j, _, h3, _⟩ | ⟨j, _, h3, _⟩ <;> omega

theorem sumBoundary_eq_sum_boundaryCells (M N : Nat) (w : Grid) (hM : 2 ≤ M) (hN : 2 ≤ N) :
    sumBoundary M N w 0 = ∑ p in boundaryCells M N, w p.1 p.2 := by
  rw [sumBoundary_eq M N w 0 hM, sum_boundaryCells M N hM hN (fun p => w p.1 p.2), zero_add]

theorem card_boundaryCells (M N : Nat) (hM : 2 ≤ M) (hN : 2 ≤ N) :
    (boundaryCells M N).card = 2 * M + 2 * N - 4 := by
  have h := sum_boundaryCells M N hM hN (fun _ => (1 : ℚ))
  simp only [Finset.sum_const, Finset.card_range, Nat.card_Ico, nsmul_eq_mul, mul_one] at h
  obtain ⟨m, rfl⟩ : ∃ m, M = m + 2 := ⟨M - 2, by omega⟩
  have e1 : m + 2 - 1 - 1 = m := by omega
  rw [e1] at h
  have h2 : ((boundaryCells (m + 2) N).card : ℚ) = ((2 * (m + 2) + 2 * N - 4 : ℕ) : ℚ) := by
    have e2 : 2 * (m + 2) + 2 * N - 4 = 2 * m + 2 * N := by omega
    rw [h, e2]
    push_cast
    ring
  exact_mod_cast h2

theorem boundaryCount_eq_card (M N : Nat) (hM : 2 ≤ M) (hN : 2 ≤ N) :
    boundaryCount M N = ((boundaryCells M N).card : ℚ) := by
  rw [card_boundaryCells M N hM hN]
  unfold boundaryCount
  have e : 4 ≤ 2 * M + 2 * N := by omega
  push_cast [Nat.cast_sub e]
  ring


/-- The sum accumulated over the walls written by `initBoundary`. -/
theorem sumBoundary_initBoundary (M N : Nat) (b : Walls) (w0 : Grid) (hM : 2 ≤ M)
    (hN : 2 ≤ N) :
    sumBoundary M N (initBoundary M N b w0) 0
      = ((M : ℚ) - 2) * (b.west + b.east) + (N : ℚ) * (b.south + b.north) := by
  rw [sumBoundary_eq M N _ 0 hM]
  have h1 : ∀ i ∈ Finset.Ico 1 (M - 1),
      initBoundary M N b w0 i 0 + initBoundary M N b w0 i (N - 1) = b.west + b.east := by
    intro i hi
    rw [Finset.mem_Ico] at hi
    rw [initBoundary_apply, initBoundary_apply, if_neg (by omega), if_neg (by omega),
      if_neg (by omega), if_pos (by omega), if_neg (by omega), if_neg (by omega),
      if_pos (by omega)]
  have h2 : ∀ j ∈ Finset.range N,
      initBoundary M N b w0 (M - 1) j + initBoundary M N b w0 0 j = b.south + b.north := by
    intro j hj
    rw [Finset.mem_range] at hj
    rw [initBoundary_apply, initBoundary_apply, if_neg (by omega), if_pos (by omega),
      if_pos (by omega)]
  rw [Finset.sum_congr rfl h1, Finset.sum_congr rfl h2]
  simp only [Finset.sum_const, Finset.card_range, Nat.card_Ico, nsmul_eq_mul]
  obtain ⟨m, rfl⟩ : ∃ m, M = m + 2 := ⟨M - 2, by omega⟩
  have e1 : m + 2 - 1 - 1 = m := by omega
  rw [e1]
  push_cast
  ring

theorem initGrid_of_interior (M N : Nat) (b : Walls) (w0 : Grid) (r c : Nat)
    (h : isInterior M N r c) :
    initGrid M N b w0 r c = boundaryMean M N (initBoundary M N b w0) := by
  unfold isInterior at h
  show seedInterior M N _ (initBoundary M N b w0) r c = _
  rw [seedInterior_apply, if_pos (by omega)]

/-! ## The max-difference reduction -/

/-- A running-maximum loop: the result dominates the start value and every candidate, and is
the start value or one of the candidates. -/
theorem forLoop_max (lo hi : Nat) (f : Nat → ℚ) (a : ℚ) :
    a ≤ forLoop lo hi (fun j acc => if acc < f j then f j else acc) a ∧
    (∀ j, lo ≤ j → j < hi → f j ≤ forLoop lo hi (fun j acc => if acc < f j then f j else acc) a) ∧
    (forLoop lo hi (fun j acc => if acc < f j then f j else acc) a = a ∨
      ∃ j, lo ≤ j ∧ j < hi ∧ forLoop lo hi (fun j acc => if acc < f j then f j else acc) a = f j) := by
  rcases Nat.lt_or_ge hi lo with hlt | hle
  · rw [forLoop_of_le _ _ _ _ (Nat.le_of_lt hlt)]
    exact ⟨le_refl _, fun j h1 h2 => by omega, Or.inl rfl⟩
  · exact forLoop_induction
      (fun k (m : ℚ) => a ≤ m ∧ (∀ j, lo ≤ j → j < k → f j ≤ m) ∧
        (m = a ∨ ∃ j, lo ≤ j ∧ j < k ∧ m = f j))
      lo hi (fun j acc => if acc < f j then f j else acc) a hle
      ⟨le_refl _, fun j h1 h2 => by omega, Or.inl rfl⟩
      (by
        rintro i t h1 _ ⟨ha, hall, hex⟩
        dsimp only
        by_cases hlt : t < f i
        · rw [if_pos hlt]
          refine ⟨le_trans ha (le_of_lt hlt), ?_, Or.inr ⟨i, h1, by omega, rfl⟩⟩
          intro j hj1 hj2
          rcases Nat.lt_or_ge j i with h | h
          · exact le_trans (hall j hj1 h) (le_of_lt hlt)
          · have : j = i := by omega
            subst this
            exact le_refl _
        · rw [if_neg hlt]
          refine ⟨ha, ?_, ?_⟩
          · intro j hj1 hj2
            rcases Nat.lt_or_ge j i with h | h
            · exact hall j hj1 h
            · have : j = i := by omega
              subst this
              exact not_lt.mp hlt
          · rcases hex with h | ⟨j, hj1, hj2, hj3⟩
            · exact Or.inl h
            · exact Or.inr ⟨j, hj1, by omega, hj3⟩)

/-- The doubly nested running-maximum loop over a rectangle of cells. -/
theorem forLoop_max_rect (lo1 hi1 lo2 hi2 : Nat) (f : Nat → Nat → ℚ) (a : ℚ) :
    a ≤ forLoop lo1 hi1 (fun i acc => forLoop lo2 hi2
          (fun j acc => if acc < f i j then f i j else acc) acc) a ∧
    (∀ i j, lo1 ≤ i → i < hi1 → lo2 ≤ j → j < hi2 →
      f i j ≤ forLoop lo1 hi1 (fun i acc => forLoop lo2 hi2
          (fun j acc => if acc < f i j then f i j else acc) acc) a) ∧
    (forLoop lo1 hi1 (fun i acc => forLoop lo2 hi2
          (fun j acc => if acc < f i j then f i j else acc) acc) a = a ∨
      ∃ i j, lo1 ≤ i ∧ i < hi1 ∧ lo2 ≤ j ∧ j < hi2 ∧
        forLoop lo1 hi1 (fun i acc => forLoop lo2 hi2
          (fun j acc => if acc < f i j then f i j else acc) acc) a = f i j) := by
  rcases Nat.lt_or_ge hi1 lo1 with hlt | hle
  · rw [forLoop_of_le _ _ _ _ (Nat.le_of_lt hlt)]
    exact ⟨le_refl _, fun i j h1 h2 => by omega, Or.inl rfl⟩
  · exact forLoop_induction
      (fun k (m : ℚ) => a ≤ m ∧ (∀ i j, lo1 ≤ i → i < k → lo2 ≤ j → j < hi2 → f i j ≤ m) ∧
        (m = a ∨ ∃ i j, lo1 ≤ i ∧ i < k ∧ lo2 ≤ j ∧ j < hi2 ∧ m = f i j))
      lo1 hi1 (fun i acc => forLoop lo2 hi2
          (fun j acc => if acc < f i j then f i j else acc) acc) a hle
      ⟨le_refl _, fun i j h1 h2 => by omega, Or.inl rfl⟩
      (by
        rintro i t h1 _ ⟨ha, hall, hex⟩
        obtain ⟨hb, hrow, hrex⟩ := forLoop_max lo2 hi2 (f i) t
        dsimp only
        refine ⟨le_trans ha hb, ?_, ?_⟩
        · intro i2 j hi1 hi2 hj1 hj2
          rcases Nat.lt_or_ge i2 i with h | h
          · exact le_trans (hall i2 j hi1 h hj1 hj2) hb
          · have : i2 = i := by omega
            subst this
            exact hrow j hj1 hj2
        · rcases hrex with h | ⟨j, hj1, hj2, hj3⟩
          · rw [h]
            rcases hex with h2 | ⟨i2, j, hi1, hi2, hj1, hj2, hj3⟩
            · exact Or.inl h2
            · exact Or.inr ⟨i2, j, hi1, by omega, hj1, hj2, hj3⟩
          · exact Or.inr ⟨i, j, h1, by omega, hj1, hj2, hj3⟩)

theorem maxDifference_eq_myDiff (M N : Nat) (u w : Grid) :
    maxDifference M N u w = myDiff M N u w := by
  have h0 : 0 ≤ myDiff M N u w :=
    (forLoop_max_rect 1 (M - 1) 1 (N - 1) (fun i j => |w i j - u i j|) 0).1
  unfold maxDifference mergeDiff
  split_ifs with h
  · rfl
  · exact le_antisymm h0 (not_lt.mp h)

theorem maxDifference_nonneg (M N : Nat) (u w : Grid) : 0 ≤ maxDifference M N u w := by
  rw [maxDifference_eq_myDiff]
  exact (forLoop_max_rect 1 (M - 1) 1 (N - 1) (fun i j => |w i j - u i j|) 0).1

theorem le_maxDifference (M N : Nat) (u w : Grid) (i j : Nat) (h : isInterior M N i j) :
    |w i j - u i j| ≤ maxDifference M N u w := by
  unfold isInterior at h
  rw [maxDifference_eq_myDiff]
  exact (forLoop_max_rect 1 (M - 1) 1 (N - 1) (fun i j => |w i j - u i j|) 0).2.1 i j
    (by omega) (by omega) (by omega) (by omega)

theorem maxDifference_attained (M N : Nat) (u w : Grid) (hM : 3 ≤ M) (hN : 3 ≤ N) :
    ∃ i j, isInterior M N i j ∧ maxDifference M N u w = |w i j - u i j| := by
  rcases (forLoop_max_rect 1 (M - 1) 1 (N - 1) (fun i j => |w i j - u i j|) 0).2.2
    with h | ⟨i, j, h1, h2, h3, h4, h5⟩
  · refine ⟨1, 1, ⟨le_refl _, by omega, le_refl _, by omega⟩, ?_⟩
    have hle := le_maxDifference M N u w 1 1 ⟨le_refl _, by omega, le_refl _, by omega⟩
    have h' : maxDifference M N u w = 0 := by
      rw [maxDifference_eq_myDiff]
      exact h
    rw [h'] at hle ⊢
    exact le_antisymm (abs_nonneg _) hle
  · refine ⟨i, j, ⟨h1, by omega, h3, by omega⟩, ?_⟩
    rw [maxDifference_eq_myDiff]
    exact h5

theorem interiorCells_nonempty (M N : Nat) (hM : 3 ≤ M) (hN : 3 ≤ N) :
    (interiorCells M N).Nonempty :=
  ⟨(1, 1), by
    simp only [interiorCells, Finset.mem_product, Finset.mem_Icc]
    omega⟩

theorem mem_interiorCells (M N : Nat) (p : Nat × Nat) :
    p ∈ interiorCells M N ↔ isInterior M N p.1 p.2 := by
  simp only [interiorCells, Finset.mem_product, Finset.mem_Icc, isInterior]
  tauto

/-- With a single interior cell the reduction yields the change of that cell. -/
theorem maxDifference_three (u w : Grid) : maxDifference 3 3 u w = |w 1 1 - u 1 1| := by
  obtain ⟨i, j, hint, h⟩ := maxDifference_attained 3 3 u w (le_refl _) (le_refl _)
  unfold isInterior at hint
  have hi : i = 1 := by omega
  have hj : j = 1 := by omega
  subst hi
  subst hj
  exact h

/-! ## The convergence loop -/

theorem whileLoop_stop (M N : Nat) (tolerance : ℚ) (fuel : Nat) (s : LoopState)
    (h : s.diff < tolerance) : whileLoop M N tolerance fuel s = some s := by
  cases fuel with
  | zero => exact if_neg (not_le.mpr h)
  | succ n => exact if_neg (not_le.mpr h)

theorem whileLoop_step (M N : Nat) (tolerance : ℚ) (fuel : Nat) (s : LoopState)
    (h : tolerance ≤ s.diff) :
    whileLoop M N tolerance (fuel + 1) s = whileLoop M N tolerance fuel (loopBody M N s) :=
  if_pos h

theorem whileLoop_zero (M N : Nat) (tolerance : ℚ) (s : LoopState) (h : tolerance ≤ s.diff) :
    whileLoop M N tolerance 0 s = none :=
  if_pos h

/-- The loop is entered whatever the tolerance, since `diff` starts as `tolerance`. -/
theorem main_succ (M N : Nat) (b : Walls) (tolerance : ℚ) (u0 w0 : Grid) (fuel : Nat) :
    main M N b tolerance u0 w0 (fuel + 1)
      = whileLoop M N tolerance fuel (loopBody M N (initState M N b tolerance u0 w0)) :=
  whileLoop_step M N tolerance fuel _ (le_refl _)

theorem main_zero (M N : Nat) (b : Walls) (tolerance : ℚ) (u0 w0 : Grid) :
    main M N b tolerance u0 w0 0 = none :=
  whileLoop_zero M N tolerance _ (le_refl _)

/-- With a tolerance that is not positive the loop condition holds after every sweep. -/
theorem whileLoop_never_stops (M N : Nat) (tolerance : ℚ) (ht : tolerance ≤ 0) (fuel : Nat) :
    ∀ s : LoopState, tolerance ≤ s.diff → whileLoop M N tolerance fuel s = none := by
  induction fuel with
  | zero => exact fun s h => whileLoop_zero M N tolerance s h
  | succ n ih =>
    intro s h
    rw [whileLoop_step M N tolerance n s h]
    apply ih
    rw [loopBody_diff]
    exact le_trans ht (maxDifference_nonneg M N _ _)

/-! ## The 3 × 3 grid with the reference walls -/

theorem boundaryMean_three_reference (w0 : Grid) :
    boundaryMean 3 3 (initBoundary 3 3 reference w0) = 125 / 2 := by
  unfold boundaryMean
  rw [sumBoundary_initBoundary 3 3 reference w0 (by omega) (by omega)]
  simp only [reference, boundaryCount]
  norm_num

theorem initGrid_three_reference (w0 : Grid) :
    initGrid 3 3 reference w0 0 1 = 0 ∧ initGrid 3 3 reference w0 2 1 = 100 ∧
    initGrid 3 3 reference w0 1 0 = 100 ∧ initGrid 3 3 reference w0 1 2 = 100 ∧
    initGrid 3 3 reference w0 1 1 = 125 / 2 := by
  refine ⟨?_, ?_, ?_, ?_, ?_⟩
  · rw [initGrid_of_boundary 3 3 reference w0 0 1 (by decide)]
    rfl
  · rw [initGrid_of_boundary 3 3 reference w0 2 1 (by decide)]
    rfl
  · rw [initGrid_of_boundary 3 3 reference w0 1 0 (by decide)]
    rfl
  · rw [initGrid_of_boundary 3 3 reference w0 1 2 (by decide)]
    rfl
  · rw [initGrid_of_interior 3 3 reference w0 1 1 (by decide), boundaryMean_three_reference]

/-- The centre cell of a 3 × 3 grid after the loop body. -/
theorem loopBody_three_w (s : LoopState) :
    (loopBody 3 3 s).w 1 1 = (s.w 0 1 + s.w 2 1 + s.w 1 0 + s.w 1 2) / 4 :=
  loopBody_w_of_interior 3 3 s 1 1 (by decide)

/-- The first sweep of the 3 × 3 reference grid: centre `75`, previous centre `62.5`,
difference `12.5`, one iteration counted. -/
theorem first_sweep_three (tolerance : ℚ) (u0 w0 : Grid) :
    (loopBody 3 3 (initState 3 3 reference tolerance u0 w0)).w 1 1 = 75 ∧
    (loopBody 3 3 (initState 3 3 reference tolerance u0 w0)).u 1 1 = 125 / 2 ∧
    (loopBody 3 3 (initState 3 3 reference tolerance u0 w0)).diff = 25 / 2 ∧
    (loopBody 3 3 (initState 3 3 reference tolerance u0 w0)).iterations = 1 := by
  obtain ⟨h1, h2, h3, h4, h5⟩ := initGrid_three_reference w0
  have hw : (loopBody 3 3 (initState 3 3 reference tolerance u0 w0)).w 1 1 = 75 := by
    rw [loopBody_three_w]
    show (initGrid 3 3 reference w0 0 1 + initGrid 3 3 reference w0 2 1
      + initGrid 3 3 reference w0 1 0 + initGrid 3 3 reference w0 1 2) / 4 = 75
    rw [h1, h2, h3, h4]
    norm_num
  have hu : (loopBody 3 3 (initState 3 3 reference tolerance u0 w0)).u 1 1 = 125 / 2 := by
    rw [loopBody_u_apply 3 3 _ 1 1 (by decide) (by decide)]
    exact h5
  refine ⟨hw, hu, ?_, ?_⟩
  · rw [loopBody_diff, maxDifference_three, hw, hu]
    norm_num [abs_of_pos]
  · rw [loopBody_iterations]
    rfl

/-- The second sweep of the 3 × 3 reference grid: difference `0`, two iterations counted. -/
theorem second_sweep_three (tolerance : ℚ) (u0 w0 : Grid) :
    (loopBody 3 3 (loopBody 3 3 (initState 3 3 reference tolerance u0 w0))).diff = 0 ∧
    (loopBody 3 3 (loopBody 3 3 (initState 3 3 reference tolerance u0 w0))).iterations = 2 := by
  obtain ⟨h1, h2, h3, h4, _⟩ := initGrid_three_reference w0
  obtain ⟨hw, _, _, hit⟩ := first_sweep_three tolerance u0 w0
  have hb : ∀ r c, ¬ isInterior 3 3 r c →
      (loopBody 3 3 (initState 3 3 reference tolerance u0 w0)).w r c
        = initGrid 3 3 reference w0 r c :=
    fun r c h => loopBody_w_of_not_interior 3 3 _ r c h
  constructor
  · rw [loopBody_diff, maxDifference_three, loopBody_three_w,
      loopBody_u_apply 3 3 _ 1 1 (by decide) (by decide), hw,
      hb 0 1 (by decide), hb 2 1 (by decide), hb 1 0 (by decide), hb 1 2 (by decide),
      h1, h2, h3, h4]
    norm_num
  · rw [loopBody_iterations, hit]
    rfl

/-- The iteration count of the 3 × 3 reference run when `0 < tolerance ≤ 12.5`. -/
theorem main_three_two_sweeps (tolerance : ℚ) (u0 w0 : Grid) (h0 : 0 < tolerance)
    (h1 : tolerance ≤ 25 / 2) (fuel : Nat) :
    Option.map LoopState.iterations (main 3 3 reference tolerance u0 w0 (fuel + 2))
      = some 2 := by
  obtain ⟨_, _, hd1, _⟩ := first_sweep_three tolerance u0 w0
  obtain ⟨hd2, hit⟩ := second_sweep_three tolerance u0 w0
  rw [main_succ, whileLoop_step 3 3 tolerance fuel _ (by rw [hd1]; exact h1),
    whileLoop_stop 3 3 tolerance fuel _ (by rw [hd2]; exact h0), Option.map_some', hit]

/-- The iteration count of the 3 × 3 reference run when `12.5 < tolerance`. -/
theorem main_three_one_sweep (tolerance : ℚ) (u0 w0 : Grid) (h1 : 25 / 2 < tolerance)
    (fuel : Nat) :
    Option.map LoopState.iterations (main 3 3 reference tolerance u0 w0 (fuel + 1))
      = some 1 := by
  obtain ⟨_, _, hd1, hit⟩ := first_sweep_three tolerance u0 w0
  rw [main_succ, whileLoop_stop 3 3 tolerance fuel _ (by rw [hd1]; exact h1),
    Option.map_some', hit]

/-- With one unit of fuel the 3 × 3 reference run with `tolerance ≤ 12.5` is still looping. -/
theorem main_three_fuel_one (tolerance : ℚ) (u0 w0 : Grid) (h1 : tolerance ≤ 25 / 2) :
    main 3 3 reference tolerance u0 w0 1 = none := by
  obtain ⟨_, _, hd1, _⟩ := first_sweep_three tolerance u0 w0
  rw [main_succ, whileLoop_zero 3 3 tolerance _ (by rw [hd1]; exact h1)]

/-! ## Walls of one temperature -/

theorem sweeps_loopBody (M N : Nat) (k : Nat) (s : LoopState) :
    sweeps M N k (loopBody M N s) = loopBody M N (sweeps M N k s) := by
  induction k with
  | zero => rfl
  | succ k ih =>
    show loopBody M N (sweeps M N k (loopBody M N s)) = _
    rw [ih]
    rfl

theorem sweeps_iterations (M N : Nat) (k : Nat) (s : LoopState) :
    (sweeps M N k s).iterations = s.iterations + (k : Int) := by
  induction k with
  | zero => simp [sweeps]
  | succ k ih =>
    show (loopBody M N (sweeps M N k s)).iterations = _
    rw [loopBody_iterations, ih]
    push_cast
    ring

theorem sweeps_diff_nonneg (M N : Nat) (k : Nat) (s : LoopState) (h : 0 ≤ s.diff) :
    0 ≤ (sweeps M N k s).diff := by
  cases k with
  | zero => exact h
  | succ k =>
    show 0 ≤ (loopBody M N (sweeps M N k s)).diff
    rw [loopBody_diff]
    exact maxDifference_nonneg M N _ _

/-- A loop that is left was left after some number of executions of its body, bounded by the
fuel, in the first state whose `diff` is below the tolerance. -/
theorem whileLoop_some (M N : Nat) (tolerance : ℚ) (fuel : Nat) :
    ∀ s t : LoopState, whileLoop M N tolerance fuel s = some t →
      ∃ k, k ≤ fuel ∧ t = sweeps M N k s ∧ t.diff < tolerance := by
  induction fuel with
  | zero =>
    intro s t h
    by_cases hc : tolerance ≤ s.diff
    · rw [whileLoop_zero M N tolerance s hc] at h
      exact absurd h (by simp)
    · rw [whileLoop_stop M N tolerance 0 s (not_le.mp hc)] at h
      have e : s = t := Option.some.inj h
      subst e
      exact ⟨0, le_refl _, rfl, not_le.mp hc⟩
  | succ n ih =>
    intro s t h
    by_cases hc : tolerance ≤ s.diff
    · rw [whileLoop_step M N tolerance n s hc] at h
      obtain ⟨k, hk, ht, hd⟩ := ih (loopBody M N s) t h
      refine ⟨k + 1, by omega, ?_, hd⟩
      rw [ht, sweeps_loopBody]
      rfl
    · rw [whileLoop_stop M N tolerance (n + 1) s (not_le.mp hc)] at h
      have e : s = t := Option.some.inj h
      subst e
      exact ⟨0, Nat.zero_le _, rfl, not_le.mp hc⟩

/-- A run of the program that ends has executed the loop body at least once. -/
theorem main_some (M N : Nat) (b : Walls) (tolerance : ℚ) (u0 w0 : Grid) (fuel : Nat)
    (t : LoopState) (h : main M N b tolerance u0 w0 fuel = some t) :
    ∃ k, 1 ≤ k ∧ k ≤ fuel ∧ t = sweeps M N k (initState M N b tolerance u0 w0) := by
  cases fuel with
  | zero =>
    rw [main_zero] at h
    exact absurd h (by simp)
  | succ n =>
    rw [main_succ] at h
    obtain ⟨k, hk, ht, _⟩ := whileLoop_some M N tolerance n _ t h
    refine ⟨k + 1, by omega, by omega, ?_⟩
    rw [ht, sweeps_loopBody]
    rfl

/-- The final state of the 3 × 3 reference run when `0 < tolerance ≤ 12.5`. -/
theorem main_three_final_state (tolerance : ℚ) (u0 w0 : Grid) (h0 : 0 < tolerance)
    (h1 : tolerance ≤ 25 / 2) (fuel : Nat) :
    main 3 3 reference tolerance u0 w0 (fuel + 2)
      = some (loopBody 3 3 (loopBody 3 3 (initState 3 3 reference tolerance u0 w0))) := by
  obtain ⟨_, _, hd1, _⟩ := first_sweep_three tolerance u0 w0
  obtain ⟨hd2, _⟩ := second_sweep_three tolerance u0 w0
  rw [main_succ, whileLoop_step 3 3 tolerance fuel _ (by rw [hd1]; exact h1),
    whileLoop_stop 3 3 tolerance fuel _ (by rw [hd2]; exact h0)]

theorem referenceTolerance_pos : 0 < referenceTolerance := by
  unfold referenceTolerance
  norm_num

theorem referenceTolerance_le : referenceTolerance ≤ 25 / 2 := by
  unfold referenceTolerance
  norm_num

/-- The reference walls: the value of every boundary cell after any number of sweeps. -/
theorem sweeps_reference_boundary (M N : Nat) (tolerance : ℚ) (u0 w0 : Grid) (k : Nat)
    (r c : Nat) (h : isBoundary M N r c) :
    (sweeps M N k (initState M N reference tolerance u0 w0)).w r c
      = if r = 0 then 0 else 100 := by
  have hni : ¬ isInterior M N r c := by
    unfold isBoundary at h
    unfold isInterior
    omega
  rw [sweeps_w_of_not_interior M N k _ r c hni]
  show initGrid M N reference w0 r c = _
  rw [initGrid_of_boundary M N reference w0 r c h]
  simp only [reference]
  split_ifs <;> rfl

/-! ## The progress report -/

theorem loopBody_iterations_print (M N : Nat) (s : LoopState) :
    (loopBody M N s).iterations_print
      = if s.iterations + 1 = s.iterations_print then 2 * s.iterations_print
        else s.iterations_print := by
  unfold loopBody sweep
  dsimp only
  split_ifs <;> rfl

theorem loopBody_output (M N : Nat) (s : LoopState) :
    (loopBody M N s).output
      = if s.iterations + 1 = s.iterations_print
        then s.output ++ [(s.iterations + 1, (loopBody M N s).diff)]
        else s.output := by
  rw [loopBody_diff, loopBody_u, loopBody_w]
  unfold loopBody sweep
  dsimp only
  split_ifs <;> rfl

/-- The state of the report variables after `k` executions of the loop body: `iterations_print`
is a power of two above `k` whose half is not above `k`, and the iteration numbers printed so
far are the smaller powers of two, in increasing order. -/
theorem sweeps_cadence (M N : Nat) (b : Walls) (tolerance : ℚ) (u0 w0 : Grid) (k : Nat) :
    ∃ e : Nat,
      (sweeps M N k (initState M N b tolerance u0 w0)).iterations_print = ((2 ^ e : Nat) : Int) ∧
      k < 2 ^ e ∧ (e = 0 ∨ 2 ^ (e - 1) ≤ k) ∧
      (sweeps M N k (initState M N b tolerance u0 w0)).output.map Prod.fst
        = (List.range e).map (fun a => ((2 ^ a : Nat) : Int)) := by
  induction k with
  | zero => exact ⟨0, rfl, by norm_num, Or.inl rfl, rfl⟩
  | succ k ih =>
    obtain ⟨e, hp, hlt, hge, hout⟩ := ih
    have hit : (sweeps M N k (initState M N b tolerance u0 w0)).iterations = (k : Int) := by
      rw [sweeps_iterations]
      show (0 : Int) + (k : Int) = k
      ring
    show ∃ e : Nat,
      (loopBody M N (sweeps M N k (initState M N b tolerance u0 w0))).iterations_print
          = ((2 ^ e : Nat) : Int) ∧
      k + 1 < 2 ^ e ∧ (e = 0 ∨ 2 ^ (e - 1) ≤ k + 1) ∧
      (loopBody M N (sweeps M N k (initState M N b tolerance u0 w0))).output.map Prod.fst
        = (List.range e).map (fun a => ((2 ^ a : Nat) : Int))
    rw [loopBody_iterations_print, loopBody_output, hit, hp]
    by_cases hk : k + 1 = 2 ^ e
    · have hk' : (k : Int) + 1 = ((2 ^ e : Nat) : Int) := by exact_mod_cast hk
      rw [if_pos hk', if_pos hk']
      refine ⟨e + 1, ?_, ?_, Or.inr ?_, ?_⟩
      · rw [pow_succ]
        push_cast
        ring
      · rw [pow_succ]
        omega
      · rw [Nat.add_sub_cancel]
        omega
      · rw [List.map_append, hout, List.range_succ, List.map_append]
        simp only [List.map_cons, List.map_nil]
        rw [hk']
    · have hk' : ¬ ((k : Int) + 1 = ((2 ^ e : Nat) : Int)) := by
        intro h
        exact hk (by exact_mod_cast h)
      rw [if_neg hk', if_neg hk']
      refine ⟨e, rfl, by omega, ?_, hout⟩
      rcases hge with h0 | h1
      · subst h0
        simp at hlt
        subst hlt
        exact absurd rfl hk
      · exact Or.inr (by omega)

/-- Under the invariant of `sweeps_cadence`, a power of two is at most `k` exactly when its
exponent is below `e`. -/
theorem pow_two_le_iff_lt (k e a : Nat) (hlt : k < 2 ^ e) (hge : e = 0 ∨ 2 ^ (e - 1) ≤ k) :
    2 ^ a ≤ k ↔ a < e := by
  constructor
  · intro h
    by_contra hn
    have h2 : 2 ^ e ≤ 2 ^ a := Nat.pow_le_pow_right (by norm_num) (not_lt.mp hn)
    omega
  · intro h
    rcases hge with h0 | h1
    · omega
    · have h2 : 2 ^ a ≤ 2 ^ (e - 1) := Nat.pow_le_pow_right (by norm_num) (by omega)
      omega

/-! ## The change of the grid from one sweep to the next -/

/-- An upper bound for the result of the max-difference reduction. -/
theorem maxDifference_le (M N : Nat) (u w : Grid) (B : ℚ) (h0 : 0 ≤ B)
    (h : ∀ i j, isInterior M N i j → |w i j - u i j| ≤ B) : maxDifference M N u w ≤ B := by
  rw [maxDifference_eq_myDiff]
  rcases (forLoop_max_rect 1 (M - 1) 1 (N - 1) (fun i j => |w i j - u i j|) 0).2.2
    with h1 | ⟨i, j, h1, h2, h3, h4, h5⟩
  · have h1' : myDiff M N u w = 0 := h1
    rw [h1']
    exact h0
  · have h5' : myDiff M N u w = |w i j - u i j| := h5
    rw [h5']
    exact h i j ⟨h1, by omega, h3, by omega⟩

/-- Every cell of the grid changes by at most `diff` in an execution of the loop body. -/
theorem abs_change_le_diff (M N : Nat) (s : LoopState) (r c : Nat) (hr : r < M) (hc : c < N) :
    |(loopBody M N s).w r c - s.w r c| ≤ (loopBody M N s).diff := by
  rw [loopBody_diff]
  by_cases hint : isInterior M N r c
  · have h := le_maxDifference M N (loopBody M N s).u (loopBody M N s).w r c hint
    rw [loopBody_u_apply M N s r c hr hc] at h
    exact h
  · rw [loopBody_w_of_not_interior M N s r c hint, sub_self, abs_zero]
    exact maxDifference_nonneg M N _ _

/-- The change of an interior cell in a sweep is the average of the changes of its four
neighbours in the sweep before. -/
theorem change_step (M N : Nat) (s : LoopState) (i j : Nat) (h : isInterior M N i j) :
    (loopBody M N (loopBody M N s)).w i j - (loopBody M N s).w i j
      = (((loopBody M N s).w (i - 1) j - s.w (i - 1) j)
          + ((loopBody M N s).w (i + 1) j - s.w (i + 1) j)
          + ((loopBody M N s).w i (j - 1) - s.w i (j - 1))
          + ((loopBody M N s).w i (j + 1) - s.w i (j + 1))) / 4 := by
  rw [loopBody_w_of_interior M N (loopBody M N s) i j h, loopBody_w_of_interior M N s i j h]
  ring

/-- The difference of a sweep is at most the difference of the sweep before. -/
theorem loopBody_diff_le (M N : Nat) (s : LoopState) :
    (loopBody M N (loopBody M N s)).diff ≤ (loopBody M N s).diff := by
  have hB : 0 ≤ (loopBody M N s).diff := by
    rw [loopBody_diff]
    exact maxDifference_nonneg M N _ _
  rw [loopBody_diff M N (loopBody M N s)]
  apply maxDifference_le M N _ _ _ hB
  intro i j hint
  have h := hint
  unfold isInterior at h
  rw [loopBody_u_apply M N (loopBody M N s) i j (by omega) (by omega), change_step M N s i j hint]
  have h1 := abs_le.1 (abs_change_le_diff M N s (i - 1) j (by omega) (by omega))
  have h2 := abs_le.1 (abs_change_le_diff M N s (i + 1) j (by omega) (by omega))
  have h3 := abs_le.1 (abs_change_le_diff M N s i (j - 1) (by omega) (by omega))
  have h4 := abs_le.1 (abs_change_le_diff M N s i (j + 1) (by omega) (by omega))
  rw [abs_le]
  constructor <;> linarith [h1.1, h1.2, h2.1, h2.2, h3.1, h3.2, h4.1, h4.2]

/-- A sweep keeps the cells of the grid between two bounds that hold before it. -/
theorem loopBody_w_bounds (M N : Nat) (s : LoopState) (lo hi : ℚ)
    (h : ∀ r c, r < M → c < N → lo ≤ s.w r c ∧ s.w r c ≤ hi) :
    ∀ r c, r < M → c < N → lo ≤ (loopBody M N s).w r c ∧ (loopBody M N s).w r c ≤ hi := by
  intro r c hr hc
  by_cases hint : isInterior M N r c
  · have hi2 := hint
    unfold isInterior at hi2
    rw [loopBody_w_of_interior M N s r c hint]
    have h1 := h (r - 1) c (by omega) hc
    have h2 := h (r + 1) c (by omega) hc
    have h3 := h r (c - 1) hr (by omega)
    have h4 := h r (c + 1) hr (by omega)
    constructor <;> linarith [h1.1, h1.2, h2.1, h2.2, h3.1, h3.2, h4.1, h4.2]
  · rw [loopBody_w_of_not_interior M N s r c hint]
    exact h r c hr hc

theorem sweeps_w_bounds (M N : Nat) (s : LoopState) (lo hi : ℚ)
    (h : ∀ r c, r < M → c < N → lo ≤ s.w r c ∧ s.w r c ≤ hi) (k : Nat) :
    ∀ r c, r < M → c < N → lo ≤ (sweeps M N k s).w r c ∧ (sweeps M N k s).w r c ≤ hi := by
  induction k with
  | zero => exact h
  | succ k ih => exact loopBody_w_bounds M N (sweeps M N k s) lo hi ih

/-- The mean of the reference walls lies between the two wall temperatures. -/
theorem boundaryMean_reference_bounds (M N : Nat) (w0 : Grid) (hM : 3 ≤ M) (hN : 3 ≤ N) :
    0 ≤ boundaryMean M N (initBoundary M N reference w0) ∧
    boundaryMean M N (initBoundary M N reference w0) ≤ 100 := by
  unfold boundaryMean
  rw [sumBoundary_initBoundary M N reference w0 (by omega) (by omega)]
  simp only [reference, boundaryCount]
  have hM' : (3 : ℚ) ≤ (M : ℚ) := by exact_mod_cast hM
  have hN' : (3 : ℚ) ≤ (N : ℚ) := by exact_mod_cast hN
  push_cast
  have hpos : (0 : ℚ) < 2 * (M : ℚ) + 2 * (N : ℚ) - 4 := by linarith
  constructor
  · apply div_nonneg
    · nlinarith
    · exact le_of_lt hpos
  · rw [div_le_iff₀ hpos]
    nlinarith

theorem initGrid_reference_bounds (M N : Nat) (w0 : Grid) (hM : 3 ≤ M) (hN : 3 ≤ N)
    (r c : Nat) (hr : r < M) (hc : c < N) :
    0 ≤ initGrid M N reference w0 r c ∧ initGrid M N reference w0 r c ≤ 100 := by
  by_cases hint : isInterior M N r c
  · rw [initGrid_of_interior M N reference w0 r c hint]
    exact boundaryMean_reference_bounds M N w0 hM hN
  · have hb : isBoundary M N r c := by
      unfold isInterior at hint
      unfold isBoundary
      omega
    rw [initGrid_of_boundary M N reference w0 r c hb]
    simp only [reference]
    split_ifs <;> norm_num

/-! ## Convergence of the sweeps -/

/-- One sweep shrinks a bound on the changes that is weighted by `r * (M - 1 - r)`: the average
of the weight over the four neighbours of an interior cell is the weight minus one half. -/
theorem change_bound_step (M N : Nat) (s : LoopState) (hM : 3 ≤ M) (K : ℚ) (hK : 0 ≤ K)
    (h : ∀ r c, r < M → c < N →
      |(loopBody M N s).w r c - s.w r c| ≤ K * ((r : ℚ) * ((M : ℚ) - 1 - (r : ℚ)))) :
    ∀ r c, r < M → c < N →
      |(loopBody M N (loopBody M N s)).w r c - (loopBody M N s).w r c|
        ≤ (K * (1 - 1 / (2 * ((M : ℚ) - 1) ^ 2))) * ((r : ℚ) * ((M : ℚ) - 1 - (r : ℚ))) := by
  intro r c hr hc
  have hM' : (3 : ℚ) ≤ (M : ℚ) := by exact_mod_cast hM
  have hx0 : (0 : ℚ) ≤ (r : ℚ) := Nat.cast_nonneg r
  have hxm : (r : ℚ) ≤ (M : ℚ) - 1 := by
    have : r + 1 ≤ M := hr
    have h2 : ((r + 1 : Nat) : ℚ) ≤ (M : ℚ) := by exact_mod_cast this
    push_cast at h2
    linarith
  have hg0 : 0 ≤ (r : ℚ) * ((M : ℚ) - 1 - (r : ℚ)) := mul_nonneg hx0 (by linarith)
  have hm2 : (0 : ℚ) < 2 * ((M : ℚ) - 1) ^ 2 := by nlinarith
  have hgm : (r : ℚ) * ((M : ℚ) - 1 - (r : ℚ)) ≤ ((M : ℚ) - 1) ^ 2 := by nlinarith
  have ht0 : 0 ≤ 1 / (2 * ((M : ℚ) - 1) ^ 2) := le_of_lt (one_div_pos.2 hm2)
  have htg : 1 / (2 * ((M : ℚ) - 1) ^ 2) * ((r : ℚ) * ((M : ℚ) - 1 - (r : ℚ))) ≤ 1 / 2 := by
    rw [one_div_mul_eq_div, div_le_iff₀ hm2]
    linarith
  have ht1 : 1 / (2 * ((M : ℚ) - 1) ^ 2) ≤ 1 := by
    rw [div_le_iff₀ hm2]
    nlinarith
  by_cases hint : isInterior M N r c
  · have hi2 := hint
    unfold isInterior at hi2
    rw [change_step M N s r c hint]
    have e1 : ((r - 1 : Nat) : ℚ) = (r : ℚ) - 1 := by
      rw [Nat.cast_sub hi2.1]
      simp
    have h1 := abs_le.1 (h (r - 1) c (by omega) hc)
    have h2 := abs_le.1 (h (r + 1) c (by omega) hc)
    have h3 := abs_le.1 (h r (c - 1) hr (by omega))
    have h4 := abs_le.1 (h r (c + 1) hr (by omega))
    rw [e1] at h1
    push_cast at h2
    have key : K * ((r : ℚ) * ((M : ℚ) - 1 - (r : ℚ))) - K / 2
        ≤ (K * (1 - 1 / (2 * ((M : ℚ) - 1) ^ 2))) * ((r : ℚ) * ((M : ℚ) - 1 - (r : ℚ))) := by
      have := mul_le_mul_of_nonneg_left htg hK
      linarith
    have e2 : K * (((r : ℚ) - 1) * ((M : ℚ) - 1 - ((r : ℚ) - 1)))
        + K * (((r : ℚ) + 1) * ((M : ℚ) - 1 - ((r : ℚ) + 1)))
        = 2 * (K * ((r : ℚ) * ((M : ℚ) - 1 - (r : ℚ)))) - 2 * K := by ring
    rw [abs_le]
    constructor <;> linarith [h1.1, h1.2, h2.1, h2.2, h3.1, h3.2, h4.1, h4.2]
  · rw [loopBody_w_of_not_interior M N (loopBody M N s) r c hint, sub_self, abs_zero]
    exact mul_nonneg (mul_nonneg hK (by linarith)) hg0

/-- The change of every cell in sweep `k + 1` is bounded by the difference of the first sweep
times the `k`-th power of a factor below one, weighted by `r * (M - 1 - r)`. -/
theorem change_bound (M N : Nat) (s : LoopState) (hM : 3 ≤ M) (k : Nat) :
    ∀ r c, r < M → c < N →
      |(sweeps M N (k + 1) s).w r c - (sweeps M N k s).w r c|
        ≤ ((loopBody M N s).diff * (1 - 1 / (2 * ((M : ℚ) - 1) ^ 2)) ^ k)
            * ((r : ℚ) * ((M : ℚ) - 1 - (r : ℚ))) := by
  have hC : 0 ≤ (loopBody M N s).diff := by
    rw [loopBody_diff]
    exact maxDifference_nonneg M N _ _
  have hM' : (3 : ℚ) ≤ (M : ℚ) := by exact_mod_cast hM
  have hm2 : (0 : ℚ) < 2 * ((M : ℚ) - 1) ^ 2 := by nlinarith
  have hrho : 0 ≤ 1 - 1 / (2 * ((M : ℚ) - 1) ^ 2) := by
    have : 1 / (2 * ((M : ℚ) - 1) ^ 2) ≤ 1 := by
      rw [div_le_iff₀ hm2]
      nlinarith
    linarith
  induction k with
  | zero =>
    intro r c hr hc
    show |(loopBody M N s).w r c - s.w r c| ≤ _
    rw [pow_zero, mul_one]
    have hx0 : (0 : ℚ) ≤ (r : ℚ) := Nat.cast_nonneg r
    have hxm : (r : ℚ) ≤ (M : ℚ) - 1 := by
      have : r + 1 ≤ M := hr
      have h2 : ((r + 1 : Nat) : ℚ) ≤ (M : ℚ) := by exact_mod_cast this
      push_cast at h2
      linarith
    by_cases hint : isInterior M N r c
    · have hi2 := hint
      unfold isInterior at hi2
      have hr1 : (1 : ℚ) ≤ (r : ℚ) := by exact_mod_cast hi2.1
      have hr2 : (r : ℚ) + 1 ≤ (M : ℚ) - 1 := by
        have : r + 1 + 1 ≤ M := by omega
        have h2 : ((r + 1 + 1 : Nat) : ℚ) ≤ (M : ℚ) := by exact_mod_cast this
        push_cast at h2
        linarith
      have hg1 : 1 ≤ (r : ℚ) * ((M : ℚ) - 1 - (r : ℚ)) := by nlinarith
      calc |(loopBody M N s).w r c - s.w r c|
          ≤ (loopBody M N s).diff := abs_change_le_diff M N s r c hr hc
        _ = (loopBody M N s).diff * 1 := (mul_one _).symm
        _ ≤ (loopBody M N s).diff * ((r : ℚ) * ((M : ℚ) - 1 - (r : ℚ))) :=
            mul_le_mul_of_nonneg_left hg1 hC
    · rw [loopBody_w_of_not_interior M N s r c hint, sub_self, abs_zero]
      exact mul_nonneg hC (mul_nonneg hx0 (by linarith))
  | succ k ih =>
    have hstep := change_bound_step M N (sweeps M N k s) hM _
      (mul_nonneg hC (pow_nonneg hrho k)) ih
    intro r c hr hc
    refine le_trans (hstep r c hr hc) (le_of_eq ?_)
    rw [pow_succ]
    ring

/-- The difference of sweep `k + 1` is bounded by a geometric sequence. -/
theorem diff_bound (M N : Nat) (s : LoopState) (hM : 3 ≤ M) (k : Nat) :
    (sweeps M N (k + 1) s).diff
      ≤ ((loopBody M N s).diff * (1 - 1 / (2 * ((M : ℚ) - 1) ^ 2)) ^ k) * ((M : ℚ) - 1) ^ 2 := by
  have hC : 0 ≤ (loopBody M N s).diff := by
    rw [loopBody_diff]
    exact maxDifference_nonneg M N _ _
  have hM' : (3 : ℚ) ≤ (M : ℚ) := by exact_mod_cast hM
  have hm2 : (0 : ℚ) < 2 * ((M : ℚ) - 1) ^ 2 := by nlinarith
  have hrho : 0 ≤ 1 - 1 / (2 * ((M : ℚ) - 1) ^ 2) := by
    have : 1 / (2 * ((M : ℚ) - 1) ^ 2) ≤ 1 := by
      rw [div_le_iff₀ hm2]
      nlinarith
    linarith
  have hK : 0 ≤ (loopBody M N s).diff * (1 - 1 / (2 * ((M : ℚ) - 1) ^ 2)) ^ k :=
    mul_nonneg hC (pow_nonneg hrho k)
  show (loopBody M N (sweeps M N k s)).diff ≤ _
  rw [loopBody_diff]
  apply maxDifference_le M N _ _ _ (mul_nonneg hK (by positivity))
  intro i j hint
  have hi2 := hint
  unfold isInterior at hi2
  rw [loopBody_u_apply M N _ i j (by omega) (by omega)]
  have h := change_bound M N s hM k i j (by omega) (by omega)
  have hx0 : (0 : ℚ) ≤ (i : ℚ) := Nat.cast_nonneg i
  have hxm : (i : ℚ) ≤ (M : ℚ) - 1 := by
    have : i + 1 ≤ M := by omega
    have h2 : ((i + 1 : Nat) : ℚ) ≤ (M : ℚ) := by exact_mod_cast this
    push_cast at h2
    linarith
  have hgm : (i : ℚ) * ((M : ℚ) - 1 - (i : ℚ)) ≤ ((M : ℚ) - 1) ^ 2 := by nlinarith
  exact le_trans h (mul_le_mul_of_nonneg_left hgm hK)

/-- For a positive tolerance some sweep has a difference below the tolerance. -/
theorem exists_sweep_diff_lt (M N : Nat) (s : LoopState) (hM : 3 ≤ M) (tolerance : ℚ)
    (ht : 0 < tolerance) : ∃ k : Nat, (sweeps M N (k + 1) s).diff < tolerance := by
  have hC : 0 ≤ (loopBody M N s).diff := by
    rw [loopBody_diff]
    exact maxDifference_nonneg M N _ _
  have hM' : (3 : ℚ) ≤ (M : ℚ) := by exact_mod_cast hM
  have hm2 : (0 : ℚ) < 2 * ((M : ℚ) - 1) ^ 2 := by nlinarith
  have hrho1 : 1 - 1 / (2 * ((M : ℚ) - 1) ^ 2) < 1 := by
    have : 0 < 1 / (2 * ((M : ℚ) - 1) ^ 2) := one_div_pos.2 hm2
    linarith
  have hrho0 : 0 ≤ 1 - 1 / (2 * ((M : ℚ) - 1) ^ 2) := by
    have : 1 / (2 * ((M : ℚ) - 1) ^ 2) ≤ 1 := by
      rw [div_le_iff₀ hm2]
      nlinarith
    linarith
  have hden : 0 < (loopBody M N s).diff * ((M : ℚ) - 1) ^ 2 + 1 := by positivity
  obtain ⟨n, hn⟩ := exists_pow_lt_of_lt_one (div_pos ht hden) hrho1
  refine ⟨n, lt_of_le_of_lt (diff_bound M N s hM n) ?_⟩
  rw [lt_div_iff₀ hden] at hn
  have hp : 0 ≤ (1 - 1 / (2 * ((M : ℚ) - 1) ^ 2)) ^ n := pow_nonneg hrho0 n
  nlinarith

/-- When some state of the run has a difference below the tolerance, the loop is left, in the
first such state, for every sufficient amount of fuel. -/
theorem whileLoop_of_sweeps_lt (M N : Nat) (tolerance : ℚ) (k : Nat) :
    ∀ s : LoopState, (sweeps M N k s).diff < tolerance →
      ∃ j, j ≤ k ∧ (sweeps M N j s).diff < tolerance ∧
        (∀ i, i < j → tolerance ≤ (sweeps M N i s).diff) ∧
        ∀ fuel, j ≤ fuel → whileLoop M N tolerance fuel s = some (sweeps M N j s) := by
  induction k with
  | zero =>
    intro s h
    exact ⟨0, le_refl _, h, fun i hi => by omega, fun fuel _ => whileLoop_stop M N tolerance fuel s h⟩
  | succ k ih =>
    intro s h
    by_cases hc : s.diff < tolerance
    · exact ⟨0, Nat.zero_le _, hc, fun i hi => by omega,
        fun fuel _ => whileLoop_stop M N tolerance fuel s hc⟩
    · have h' : (sweeps M N k (loopBody M N s)).diff < tolerance := by
        rw [sweeps_loopBody]
        exact h
      obtain ⟨j, hj, hd, hbefore, hrun⟩ := ih (loopBody M N s) h'
      refine ⟨j + 1, by omega, ?_, ?_, ?_⟩
      · show (loopBody M N (sweeps M N j s)).diff < tolerance
        rw [← sweeps_loopBody]
        exact hd
      · intro i hi
        cases i with
        | zero => exact not_lt.mp hc
        | succ i =>
          show tolerance ≤ (loopBody M N (sweeps M N i s)).diff
          rw [← sweeps_loopBody]
          exact hbefore i (by omega)
      · intro fuel hf
        obtain ⟨f, rfl⟩ : ∃ f, fuel = f + 1 := ⟨fuel - 1, by omega⟩
        rw [whileLoop_step M N tolerance f s (not_lt.mp hc), hrun f (by omega)]
        show some (sweeps M N j (loopBody M N s)) = some (loopBody M N (sweeps M N j s))
        rw [sweeps_loopBody]

/-! ## The loops shared among threads -/

/-- The partial maximum of a thread started from `a`: it dominates `a` and the change of every
cell in its rows, and is `a` or the change of one of those cells. -/
theorem threadDiff_fold (N : Nat) (f : Nat → Nat → ℚ) (rows : List Nat) :
    ∀ a : ℚ,
      a ≤ rows.foldl (fun md i => forLoop 1 (N - 1)
            (fun j md => if md < f i j then f i j else md) md) a ∧
      (∀ i ∈ rows, ∀ j, 1 ≤ j → j < N - 1 →
        f i j ≤ rows.foldl (fun md i => forLoop 1 (N - 1)
            (fun j md => if md < f i j then f i j else md) md) a) ∧
      (rows.foldl (fun md i => forLoop 1 (N - 1)
            (fun j md => if md < f i j then f i j else md) md) a = a ∨
        ∃ i ∈ rows, ∃ j, 1 ≤ j ∧ j < N - 1 ∧
          rows.foldl (fun md i => forLoop 1 (N - 1)
            (fun j md => if md < f i j then f i j else md) md) a = f i j) := by
  induction rows with
  | nil =>
    intro a
    exact ⟨le_refl _, fun i hi => absurd hi (List.not_mem_nil i), Or.inl rfl⟩
  | cons i0 rest ih =>
    intro a
    rw [List.foldl_cons]
    obtain ⟨h1, h2, h3⟩ := forLoop_max 1 (N - 1) (f i0) a
    obtain ⟨g1, g2, g3⟩ := ih (forLoop 1 (N - 1) (fun j md => if md < f i0 j then f i0 j else md) a)
    refine ⟨le_trans h1 g1, ?_, ?_⟩
    · intro i hi j hj1 hj2
      rcases List.mem_cons.1 hi with rfl | hi'
      · exact le_trans (h2 j hj1 hj2) g1
      · exact g2 i hi' j hj1 hj2
    · rcases g3 with g | ⟨i, hi, j, hj1, hj2, g⟩
      · rw [g]
        rcases h3 with h | ⟨j, hj1, hj2, h⟩
        · exact Or.inl h
        · exact Or.inr ⟨i0, List.mem_cons_self _ _, j, hj1, hj2, h⟩
      · exact Or.inr ⟨i, List.mem_cons_of_mem _ hi, j, hj1, hj2, g⟩

/-- The shared `diff` started from `a ≥ 0` after the threads have merged their partial maxima:
it dominates `a` and the change of every cell in every chunk, and is `a` or the change of one of
those cells. -/
theorem parallel_fold (N : Nat) (u w : Grid) (chunks : List (List Nat)) :
    ∀ a : ℚ, 0 ≤ a →
      a ≤ chunks.foldl (fun diff rows => mergeDiff diff (threadDiff N u w rows)) a ∧
      (∀ rows ∈ chunks, ∀ i ∈ rows, ∀ j, 1 ≤ j → j < N - 1 →
        |w i j - u i j|
          ≤ chunks.foldl (fun diff rows => mergeDiff diff (threadDiff N u w rows)) a) ∧
      (chunks.foldl (fun diff rows => mergeDiff diff (threadDiff N u w rows)) a = a ∨
        ∃ rows ∈ chunks, ∃ i ∈ rows, ∃ j, 1 ≤ j ∧ j < N - 1 ∧
          chunks.foldl (fun diff rows => mergeDiff diff (threadDiff N u w rows)) a
            = |w i j - u i j|) := by
  induction chunks with
  | nil =>
    intro a _
    exact ⟨le_refl _, fun rows hr => absurd hr (List.not_mem_nil rows), Or.inl rfl⟩
  | cons rows0 rest ih =>
    intro a ha
    rw [List.foldl_cons]
    obtain ⟨t1, t2, t3⟩ := threadDiff_fold N (fun i j => |w i j - u i j|) rows0 0
    have t1' : 0 ≤ threadDiff N u w rows0 := t1
    have t2' : ∀ i ∈ rows0, ∀ j, 1 ≤ j → j < N - 1 →
        |w i j - u i j| ≤ threadDiff N u w rows0 := t2
    have t3' : threadDiff N u w rows0 = 0 ∨ ∃ i ∈ rows0, ∃ j, 1 ≤ j ∧ j < N - 1 ∧
        threadDiff N u w rows0 = |w i j - u i j| := t3
    have m1 : a ≤ mergeDiff a (threadDiff N u w rows0) := by
      unfold mergeDiff
      split_ifs with h
      · exact le_of_lt h
      · exact le_refl _
    have m2 : threadDiff N u w rows0 ≤ mergeDiff a (threadDiff N u w rows0) := by
      unfold mergeDiff
      split_ifs with h
      · exact le_refl _
      · exact not_lt.mp h
    have m3 : mergeDiff a (threadDiff N u w rows0) = a ∨
        (a < threadDiff N u w rows0 ∧
          mergeDiff a (threadDiff N u w rows0) = threadDiff N u w rows0) := by
      unfold mergeDiff
      split_ifs with h
      · exact Or.inr ⟨h, rfl⟩
      · exact Or.inl rfl
    obtain ⟨g1, g2, g3⟩ := ih (mergeDiff a (threadDiff N u w rows0)) (le_trans ha m1)
    refine ⟨le_trans m1 g1, ?_, ?_⟩
    · intro rows hr i hi j hj1 hj2
      rcases List.mem_cons.1 hr with rfl | hr'
      · exact le_trans (t2' i hi j hj1 hj2) (le_trans m2 g1)
      · exact g2 rows hr' i hi j hj1 hj2
    · rcases g3 with g | ⟨rows, hr, i, hi, j, hj1, hj2, g⟩
      · rw [g]
        rcases m3 with m | ⟨hlt, m⟩
        · exact Or.inl m
        · rw [m]
          rcases t3' with t | ⟨i, hi, j, hj1, hj2, t⟩
          · rw [t] at hlt
            exact absurd ha (not_le.mpr hlt)
          · exact Or.inr ⟨rows0, List.mem_cons_self _ _, i, hi, j, hj1, hj2, t⟩
      · exact Or.inr ⟨rows, List.mem_cons_of_mem _ hr, i, hi, j, hj1, hj2, g⟩

/-- The grid after the stencil assignments have been carried out in the order of `cells`. -/
theorem stencilUpdateInOrder_apply (u : Grid) (cells : List (Nat × Nat)) :
    ∀ (w : Grid) (r c : Nat),
      stencilUpdateInOrder u w cells r c
        = if (r, c) ∈ cells
          then (u (r - 1) c + u (r + 1) c + u r (c - 1) + u r (c + 1)) / 4
          else w r c := by
  induction cells with
  | nil =>
    intro w r c
    simp [stencilUpdateInOrder]
  | cons p rest ih =>
    intro w r c
    show stencilUpdateInOrder u (stencilCell u w p.1 p.2) rest r c = _
    rw [ih]
    by_cases hrest : (r, c) ∈ rest
    · rw [if_pos hrest, if_pos (List.mem_cons_of_mem _ hrest)]
    · rw [if_neg hrest]
      unfold stencilCell setCell
      by_cases hp : r = p.1 ∧ c = p.2
      · obtain ⟨h1, h2⟩ := hp
        have e : (r, c) = p := by
          rw [h1, h2]
        rw [if_pos ⟨h1, h2⟩, if_pos (by rw [e]; exact List.mem_cons_self _ _), h1, h2]
      · rw [if_neg hp, if_neg]
        intro hmem
        rcases List.mem_cons.1 hmem with h | h
        · exact hp ⟨by rw [← h], by rw [← h]⟩
        · exact hrest h

/-! ## Binary64 rounding -/

/-- The digit count found with enough fuel brackets the number between two powers of two. -/
theorem bitLength_spec (fuel : Nat) :
    ∀ n : Nat, n ≤ fuel → 0 < n →
      2 ^ bitLength fuel n ≤ 2 * n ∧ n < 2 ^ bitLength fuel n := by
  induction fuel with
  | zero =>
    intro n h1 h2
    omega
  | succ k ih =>
    intro n h1 h2
    have hn : n ≠ 0 := by omega
    show 2 ^ (if n = 0 then 0 else bitLength k (n / 2) + 1) ≤ 2 * n ∧
      n < 2 ^ (if n = 0 then 0 else bitLength k (n / 2) + 1)
    rw [if_neg hn]
    rcases Nat.lt_or_ge n 2 with hlt | hge
    · have h1' : n = 1 := by omega
      subst h1'
      have e : bitLength k (1 / 2) = 0 := by
        cases k with
        | zero => rfl
        | succ m => rfl
      rw [e]
      norm_num
    · have hdiv : 0 < n / 2 := Nat.div_pos hge (by norm_num)
      obtain ⟨g1, g2⟩ := ih (n / 2) (by omega) hdiv
      rw [pow_succ]
      constructor <;> omega

/-- The binade brackets a non-zero rational between two consecutive powers of two. -/
theorem binade_spec (x : ℚ) (hx : x ≠ 0) :
    (2 : ℚ) ^ binade x ≤ |x| ∧ |x| < (2 : ℚ) ^ (binade x + 1) := by
  have hnum : x.num ≠ 0 := Rat.num_ne_zero.mpr hx
  have hp : 0 < x.num.natAbs := Int.natAbs_pos.mpr hnum
  have hq : 0 < x.den := x.den_pos
  obtain ⟨p1, p2⟩ := bitLength_spec x.num.natAbs x.num.natAbs (le_refl _) hp
  obtain ⟨q1, q2⟩ := bitLength_spec x.den x.den (le_refl _) hq
  have habs : |x| = (x.num.natAbs : ℚ) / (x.den : ℚ) := by
    conv_lhs => rw [← Rat.num_div_den x]
    rw [abs_div, Nat.abs_cast, Nat.cast_natAbs, Int.cast_abs]
  have hP1 : (2 : ℚ) ^ bitLength x.num.natAbs x.num.natAbs ≤ 2 * (x.num.natAbs : ℚ) := by
    exact_mod_cast p1
  have hP2 : (x.num.natAbs : ℚ) < (2 : ℚ) ^ bitLength x.num.natAbs x.num.natAbs := by
    exact_mod_cast p2
  have hQ1 : (2 : ℚ) ^ bitLength x.den x.den ≤ 2 * (x.den : ℚ) := by exact_mod_cast q1
  have hQ2 : (x.den : ℚ) < (2 : ℚ) ^ bitLength x.den x.den := by exact_mod_cast q2
  have hQ0 : (0 : ℚ) < (x.den : ℚ) := by exact_mod_cast hq
  have hB0 : (0 : ℚ) < (2 : ℚ) ^ bitLength x.den x.den := by positivity
  have hA0 : (0 : ℚ) < (2 : ℚ) ^ bitLength x.num.natAbs x.num.natAbs := by positivity
  have he0 : (2 : ℚ) ^ ((bitLength x.num.natAbs x.num.natAbs : Int) - (bitLength x.den x.den : Int))
      = (2 : ℚ) ^ bitLength x.num.natAbs x.num.natAbs / (2 : ℚ) ^ bitLength x.den x.den := by
    rw [zpow_sub₀ (by norm_num : (2 : ℚ) ≠ 0), zpow_natCast, zpow_natCast]
  unfold binade
  split_ifs with h
  · refine ⟨h, ?_⟩
    have e1 : (2 : ℚ) ^ ((bitLength x.num.natAbs x.num.natAbs : Int)
          - (bitLength x.den x.den : Int) + 1)
        = (2 * (2 : ℚ) ^ bitLength x.num.natAbs x.num.natAbs)
            / (2 : ℚ) ^ bitLength x.den x.den := by
      rw [zpow_add_one₀ (by norm_num : (2 : ℚ) ≠ 0), he0]
      ring
    rw [e1, habs, div_lt_div_iff₀ hQ0 hB0]
    nlinarith
  · have e2 : (2 : ℚ) ^ ((bitLength x.num.natAbs x.num.natAbs : Int)
          - (bitLength x.den x.den : Int) - 1)
        = (2 : ℚ) ^ bitLength x.num.natAbs x.num.natAbs
            / (2 * (2 : ℚ) ^ bitLength x.den x.den) := by
      rw [zpow_sub_one₀ (by norm_num : (2 : ℚ) ≠ 0), he0]
      field_simp
      ring
    constructor
    · rw [e2, habs, div_le_div_iff₀ (by positivity) hQ0]
      nlinarith
    · rw [sub_add_cancel]
      exact not_le.mp h

/-- Rounding to the nearest integer moves a number by at most one half. -/
theorem roundNearestEven_error (x : ℚ) : |(roundNearestEven x : ℚ) - x| ≤ 1 / 2 := by
  have h1 : (⌊x⌋ : ℚ) ≤ x := Int.floor_le x
  have h2 : x < (⌊x⌋ : ℚ) + 1 := Int.lt_floor_add_one x
  unfold roundNearestEven
  rw [abs_le]
  split_ifs with a b c
  · constructor <;> linarith
  · push_cast
    constructor <;> linarith
  · constructor <;> linarith
  · push_cast
    constructor <;> linarith

theorem ulp64_pos (x : ℚ) : 0 < ulp64 x := by
  unfold ulp64
  positivity

/-- The rounded value is a whole number of units in the last place and lies within half a unit
of the exact value. -/
theorem roundBinary64_error (x : ℚ) :
    (∃ n : Int, roundBinary64 x = (n : ℚ) * ulp64 x) ∧
    |roundBinary64 x - x| ≤ ulp64 x / 2 := by
  have hu := ulp64_pos x
  unfold roundBinary64
  split_ifs with h
  · subst h
    refine ⟨⟨0, by simp⟩, ?_⟩
    rw [sub_self, abs_zero]
    exact le_of_lt (half_pos hu)
  · refine ⟨⟨roundNearestEven (x / ulp64 x), rfl⟩, ?_⟩
    have e : (roundNearestEven (x / ulp64 x) : ℚ) * ulp64 x - x
        = ((roundNearestEven (x / ulp64 x) : ℚ) - x / ulp64 x) * ulp64 x := by
      field_simp
    rw [e, abs_mul, abs_of_pos hu]
    have := roundNearestEven_error (x / ulp64 x)
    nlinarith

/-- The model reproduces the textbook binary64 sum `0.1 + 0.2 = 0.30000000000000004`. -/
theorem roundBinary64_tenth_add_fifth :
    roundBinary64 (roundBinary64 (1 / 10) + roundBinary64 (2 / 10))
      = 5404319552844596 / 2 ^ 54 ∧
    roundBinary64 (3 / 10) = 5404319552844595 / 2 ^ 54 := by decide!

/-! ## Runs in binary64 arithmetic -/

/-- The binary64 value written `0.1`. -/
theorem tenth64_eq : tenth64 = 3602879701896397 / 2 ^ 55 := by decide!

/-- The boundary sum and the mean of the 5 × 5 grid with every wall at `0.1`, in binary64:
`1.6000000000000003` and `0.10000000000000002`, one unit in the last place above `0.1`. -/
theorem boundaryMean64_tenth :
    sumBoundary64 5 5 (initBoundary 5 5 (constWalls tenth64) (fun _ _ => 0)) 0
      = 7205759403792795 / 2 ^ 52 ∧
    boundaryMean64 5 5 (initBoundary 5 5 (constWalls tenth64) (fun _ _ => 0))
      = 7205759403792795 / 2 ^ 56 := by decide!

/-- C1. One Jacobi sweep computes the four-neighbour average from the pre-sweep snapshot: for a
grid with at least three rows and three columns, after one execution of the loop body the array
`u` equals the pre-sweep `w` in every cell of the grid (boundary included), and every interior
cell of `w` is the sum of its four neighbours in `u` divided by four, which is the sum of the
four neighbours in the pre-sweep `w` divided by four. -/
theorem C1_sweep_is_jacobi (M N : Nat) (s : LoopState) (i j : Nat)
    (hM : 3 ≤ M) (hN : 3 ≤ N) (hi1 : 1 ≤ i) (hi2 : i ≤ M - 2) (hj1 : 1 ≤ j) (hj2 : j ≤ N - 2) :
    (∀ r c, r < M → c < N → (loopBody M N s).u r c = s.w r c) ∧
    (loopBody M N s).w i j
      = ((loopBody M N s).u (i - 1) j + (loopBody M N s).u (i + 1) j
          + (loopBody M N s).u i (j - 1) + (loopBody M N s).u i (j + 1)) / 4 ∧
    (loopBody M N s).w i j
      = (s.w (i - 1) j + s.w (i + 1) j + s.w i (j - 1) + s.w i (j + 1)) / 4 := by
  have hint : isInterior M N i j := ⟨hi1, hi2, hj1, hj2⟩
  refine ⟨fun r c hr hc => loopBody_u_apply M N s r c hr hc, ?_,
    loopBody_w_of_interior M N s i j hint⟩
  rw [loopBody_w_of_interior M N s i j hint,
    loopBody_u_apply M N s (i - 1) j (by omega) (by omega),
    loopBody_u_apply M N s (i + 1) j (by omega) (by omega),
    loopBody_u_apply M N s i (j - 1) (by omega) (by omega),
    loopBody_u_apply M N s i (j + 1) (by omega) (by omega)]

/-- Witness for C1: the 3 × 3 grid entered by the reference program, at its interior cell. -/
theorem C1_sweep_is_jacobi_witness :
    (3 ≤ 3 ∧ 1 ≤ 1 ∧ 1 ≤ 3 - 2) ∧
    ((∀ r c, r < 3 → c < 3 →
        (loopBody 3 3 (initState 3 3 reference referenceTolerance (fun _ _ => 0)
          (fun _ _ => 0))).u r c
        = (initState 3 3 reference referenceTolerance (fun _ _ => 0) (fun _ _ => 0)).w r c) ∧
     (loopBody 3 3 (initState 3 3 reference referenceTolerance (fun _ _ => 0)
          (fun _ _ => 0))).w 1 1
      = ((loopBody 3 3 (initState 3 3 reference referenceTolerance (fun _ _ => 0)
            (fun _ _ => 0))).u (1 - 1) 1
          + (loopBody 3 3 (initState 3 3 reference referenceTolerance (fun _ _ => 0)
            (fun _ _ => 0))).u (1 + 1) 1
          + (loopBody 3 3 (initState 3 3 reference referenceTolerance (fun _ _ => 0)
            (fun _ _ => 0))).u 1 (1 - 1)
          + (loopBody 3 3 (initState 3 3 reference referenceTolerance (fun _ _ => 0)
            (fun _ _ => 0))).u 1 (1 + 1)) / 4 ∧
     (loopBody 3 3 (initState 3 3 reference referenceTolerance (fun _ _ => 0)
          (fun _ _ => 0))).w 1 1
      = ((initState 3 3 reference referenceTolerance (fun _ _ => 0) (fun _ _ => 0)).w (1 - 1) 1
          + (initState 3 3 reference referenceTolerance (fun _ _ => 0) (fun _ _ => 0)).w (1 + 1) 1
          + (initState 3 3 reference referenceTolerance (fun _ _ => 0) (fun _ _ => 0)).w 1 (1 - 1)
          + (initState 3 3 reference referenceTolerance (fun _ _ => 0) (fun _ _ => 0)).w 1 (1 + 1))
        / 4) :=
  ⟨by decide,
   C1_sweep_is_jacobi 3 3 (initState 3 3 reference referenceTolerance (fun _ _ => 0)
     (fun _ _ => 0)) 1 1 (by decide) (by decide) (by decide) (by decide) (by decide) (by decide)⟩

/-- C2. Boundary invariance: after any number `k` of executions of the loop body, every boundary
cell of `w` holds the value written by the boundary loops (north value on row `0`, south value
on row `M - 1`, east and west values on the remaining cells of the side columns); and one
execution of the loop body changes no cell of `w` outside the interior. -/
theorem C2_boundary_invariance (M N : Nat) (b : Walls) (tolerance : ℚ) (u0 w0 : Grid) (k : Nat)
    (r c : Nat) (h : isBoundary M N r c) :
    (sweeps M N k (initState M N b tolerance u0 w0)).w r c
        = (initState M N b tolerance u0 w0).w r c ∧
    (sweeps M N k (initState M N b tolerance u0 w0)).w r c
        = (if r = 0 then b.north else if r = M - 1 then b.south
           else if c = N - 1 then b.east else b.west) ∧
    (∀ (s : LoopState) (r c : Nat), ¬ isInterior M N r c → (loopBody M N s).w r c = s.w r c) := by
  have hni : ¬ isInterior M N r c := by
    unfold isBoundary at h
    unfold isInterior
    omega
  refine ⟨sweeps_w_of_not_interior M N k _ r c hni, ?_,
    fun s r c hn => loopBody_w_of_not_interior M N s r c hn⟩
  rw [sweeps_w_of_not_interior M N k _ r c hni]
  exact initGrid_of_boundary M N b w0 r c h

/-- Witness for C2: the south-east corner of the reference 500 × 500 grid after seven sweeps. -/
theorem C2_boundary_invariance_witness :
    isBoundary 500 500 499 499 ∧
    ((sweeps 500 500 7 (initState 500 500 reference referenceTolerance (fun _ _ => 0)
        (fun _ _ => 0))).w 499 499
        = (initState 500 500 reference referenceTolerance (fun _ _ => 0) (fun _ _ => 0)).w 499 499 ∧
     (sweeps 500 500 7 (initState 500 500 reference referenceTolerance (fun _ _ => 0)
        (fun _ _ => 0))).w 499 499
        = (if 499 = 0 then reference.north else if 499 = 500 - 1 then reference.south
           else if 499 = 500 - 1 then reference.east else reference.west) ∧
     (∀ (s : LoopState) (r c : Nat),
        ¬ isInterior 500 500 r c → (loopBody 500 500 s).w r c = s.w r c)) :=
  ⟨by decide,
   C2_boundary_invariance 500 500 reference referenceTolerance (fun _ _ => 0) (fun _ _ => 0) 7
     499 499 (by decide)⟩

/-- C3. The boundary mean is the arithmetic mean of the boundary cells, each counted once: for
at least three rows and columns and any contents of `w`, the two summation loops accumulate the
sum of `w` over the boundary cells, there are `2*M + 2*N - 4` boundary cells, and `mean` is that
sum divided by that count. For the reference 500 × 500 grid the mean is `149600/1996`. -/
theorem C3_boundary_mean (M N : Nat) (w : Grid) (hM : 3 ≤ M) (hN : 3 ≤ N) :
    sumBoundary M N w 0 = ∑ p in boundaryCells M N, w p.1 p.2 ∧
    (boundaryCells M N).card = 2 * M + 2 * N - 4 ∧
    boundaryMean M N w
      = (∑ p in boundaryCells M N, w p.1 p.2) / ((boundaryCells M N).card : ℚ) ∧
    (∀ w0 : Grid, boundaryMean 500 500 (initBoundary 500 500 reference w0) = 149600 / 1996) := by
  refine ⟨sumBoundary_eq_sum_boundaryCells M N w (by omega) (by omega),
    card_boundaryCells M N (by omega) (by omega), ?_, ?_⟩
  · unfold boundaryMean
    rw [sumBoundary_eq_sum_boundaryCells M N w (by omega) (by omega),
      boundaryCount_eq_card M N (by omega) (by omega)]
  · intro w0
    unfold boundaryMean
    rw [sumBoundary_initBoundary 500 500 reference w0 (by omega) (by omega)]
    simp only [reference, boundaryCount]
    norm_num

/-- Witness for C3: the reference 500 × 500 grid as left by the boundary loops. -/
theorem C3_boundary_mean_witness :
    (3 ≤ 500) ∧
    (sumBoundary 500 500 (initBoundary 500 500 reference (fun _ _ => 0)) 0
        = ∑ p in boundaryCells 500 500, initBoundary 500 500 reference (fun _ _ => 0) p.1 p.2 ∧
     (boundaryCells 500 500).card = 2 * 500 + 2 * 500 - 4 ∧
     boundaryMean 500 500 (initBoundary 500 500 reference (fun _ _ => 0))
        = (∑ p in boundaryCells 500 500, initBoundary 500 500 reference (fun _ _ => 0) p.1 p.2)
            / ((boundaryCells 500 500).card : ℚ) ∧
     (∀ w0 : Grid,
        boundaryMean 500 500 (initBoundary 500 500 reference w0) = 149600 / 1996)) :=
  ⟨by decide,
   C3_boundary_mean 500 500 (initBoundary 500 500 reference (fun _ _ => 0))
     (by decide) (by decide)⟩

/-- C4. After the boundary loops and the interior seeding, `w` is completely determined for at
least three rows and columns, whatever the arrays held before: row `0` is `0` including both
corners, row `M - 1` is `100` including both corners, the cells `[i][0]` and `[i][N-1]` with
`1 ≤ i ≤ M - 2` are `100`, every interior cell equals `mean`, and any two starting contents of
`w` give the same value in every cell of the grid. -/
theorem C4_initial_grid (M N : Nat) (w0 : Grid) (hM : 3 ≤ M) (hN : 3 ≤ N) :
    (∀ c, c < N → initGrid M N reference w0 0 c = 0) ∧
    (∀ c, c < N → initGrid M N reference w0 (M - 1) c = 100) ∧
    (∀ i, 1 ≤ i → i ≤ M - 2 →
      initGrid M N reference w0 i 0 = 100 ∧ initGrid M N reference w0 i (N - 1) = 100) ∧
    (∀ i j, 1 ≤ i → i ≤ M - 2 → 1 ≤ j → j ≤ N - 2 →
      initGrid M N reference w0 i j = boundaryMean M N (initBoundary M N reference w0)) ∧
    (∀ (w1 : Grid) (r c : Nat), r < M → c < N →
      initGrid M N reference w0 r c = initGrid M N reference w1 r c) := by
  have hmean : ∀ w1 : Grid, boundaryMean M N (initBoundary M N reference w1)
      = boundaryMean M N (initBoundary M N reference w0) := by
    intro w1
    unfold boundaryMean
    rw [sumBoundary_initBoundary M N reference w1 (by omega) (by omega),
      sumBoundary_initBoundary M N reference w0 (by omega) (by omega)]
  refine ⟨?_, ?_, ?_, ?_, ?_⟩
  · intro c hc
    rw [initGrid_of_boundary M N reference w0 0 c ⟨by omega, hc, Or.inl rfl⟩, if_pos rfl]
    rfl
  · intro c hc
    rw [initGrid_of_boundary M N reference w0 (M - 1) c ⟨by omega, hc, Or.inr (Or.inl rfl)⟩,
      if_neg (by omega), if_pos rfl]
    rfl
  · intro i h1 h2
    constructor
    · rw [initGrid_of_boundary M N reference w0 i 0
        ⟨by omega, by omega, Or.inr (Or.inr (Or.inl rfl))⟩,
        if_neg (by omega), if_neg (by omega), if_neg (by omega)]
      rfl
    · rw [initGrid_of_boundary M N reference w0 i (N - 1)
        ⟨by omega, by omega, Or.inr (Or.inr (Or.inr rfl))⟩,
        if_neg (by omega), if_neg (by omega), if_pos rfl]
      rfl
  · intro i j h1 h2 h3 h4
    exact initGrid_of_interior M N reference w0 i j ⟨h1, h2, h3, h4⟩
  · intro w1 r c hr hc
    by_cases hint : isInterior M N r c
    · rw [initGrid_of_interior M N reference w0 r c hint,
        initGrid_of_interior M N reference w1 r c hint, hmean w1]
    · have hb : isBoundary M N r c := by
        unfold isInterior at hint
        unfold isBoundary
        omega
      rw [initGrid_of_boundary M N reference w0 r c hb,
        initGrid_of_boundary M N reference w1 r c hb]

/-- Witness for C4: the reference 500 × 500 grid. -/
theorem C4_initial_grid_witness :
    (3 ≤ 500) ∧
    ((∀ c, c < 500 → initGrid 500 500 reference (fun _ _ => 0) 0 c = 0) ∧
     (∀ c, c < 500 → initGrid 500 500 reference (fun _ _ => 0) (500 - 1) c = 100) ∧
     (∀ i, 1 ≤ i → i ≤ 500 - 2 →
       initGrid 500 500 reference (fun _ _ => 0) i 0 = 100 ∧
       initGrid 500 500 reference (fun _ _ => 0) i (500 - 1) = 100) ∧
     (∀ i j, 1 ≤ i → i ≤ 500 - 2 → 1 ≤ j → j ≤ 500 - 2 →
       initGrid 500 500 reference (fun _ _ => 0) i j
         = boundaryMean 500 500 (initBoundary 500 500 reference (fun _ _ => 0))) ∧
     (∀ (w1 : Grid) (r c : Nat), r < 500 → c < 500 →
       initGrid 500 500 reference (fun _ _ => 0) r c = initGrid 500 500 reference w1 r c)) :=
  ⟨by decide, C4_initial_grid 500 500 (fun _ _ => 0) (by decide) (by decide)⟩

/-- C6. After every execution of the loop body, `diff` is the maximum over the interior cells of
`|w[i][j] - u[i][j]|`: it is non-negative, it bounds the absolute change of every interior cell
from above, it is attained at some interior cell, and it equals the supremum of the absolute
changes over the finite set of interior cells. -/
theorem C6_max_difference (M N : Nat) (s : LoopState) (hM : 3 ≤ M) (hN : 3 ≤ N) :
    0 ≤ (loopBody M N s).diff ∧
    (∀ i j, 1 ≤ i → i ≤ M - 2 → 1 ≤ j → j ≤ N - 2 →
      |(loopBody M N s).w i j - (loopBody M N s).u i j| ≤ (loopBody M N s).diff) ∧
    (∃ i j, (1 ≤ i ∧ i ≤ M - 2 ∧ 1 ≤ j ∧ j ≤ N - 2) ∧
      (loopBody M N s).diff = |(loopBody M N s).w i j - (loopBody M N s).u i j|) ∧
    (loopBody M N s).diff
      = (interiorCells M N).sup' (interiorCells_nonempty M N hM hN)
          (fun p => |(loopBody M N s).w p.1 p.2 - (loopBody M N s).u p.1 p.2|) := by
  rw [loopBody_diff]
  refine ⟨maxDifference_nonneg M N _ _,
    fun i j h1 h2 h3 h4 => le_maxDifference M N _ _ i j ⟨h1, h2, h3, h4⟩,
    maxDifference_attained M N _ _ hM hN, ?_⟩
  apply le_antisymm
  · obtain ⟨i, j, hint, h⟩ :=
      maxDifference_attained M N (loopBody M N s).u (loopBody M N s).w hM hN
    rw [h]
    exact Finset.le_sup' (fun p : Nat × Nat =>
      |(loopBody M N s).w p.1 p.2 - (loopBody M N s).u p.1 p.2|)
      ((mem_interiorCells M N (i, j)).2 hint)
  · apply Finset.sup'_le
    intro p hp
    exact le_maxDifference M N _ _ p.1 p.2 ((mem_interiorCells M N p).1 hp)

/-- Witness for C6: the first sweep of the reference 500 × 500 grid. -/
theorem C6_max_difference_witness :
    (3 ≤ 500) ∧
    (0 ≤ (loopBody 500 500 (initState 500 500 reference referenceTolerance (fun _ _ => 0)
        (fun _ _ => 0))).diff ∧
     (∀ i j, 1 ≤ i → i ≤ 500 - 2 → 1 ≤ j → j ≤ 500 - 2 →
       |(loopBody 500 500 (initState 500 500 reference referenceTolerance (fun _ _ => 0)
          (fun _ _ => 0))).w i j
        - (loopBody 500 500 (initState 500 500 reference referenceTolerance (fun _ _ => 0)
          (fun _ _ => 0))).u i j|
        ≤ (loopBody 500 500 (initState 500 500 reference referenceTolerance (fun _ _ => 0)
          (fun _ _ => 0))).diff) ∧
     (∃ i j, (1 ≤ i ∧ i ≤ 500 - 2 ∧ 1 ≤ j ∧ j ≤ 500 - 2) ∧
       (loopBody 500 500 (initState 500 500 reference referenceTolerance (fun _ _ => 0)
          (fun _ _ => 0))).diff
        = |(loopBody 500 500 (initState 500 500 reference referenceTolerance (fun _ _ => 0)
            (fun _ _ => 0))).w i j
          - (loopBody 500 500 (initState 500 500 reference referenceTolerance (fun _ _ => 0)
            (fun _ _ => 0))).u i j|) ∧
     (loopBody 500 500 (initState 500 500 reference referenceTolerance (fun _ _ => 0)
          (fun _ _ => 0))).diff
       = (interiorCells 500 500).sup'
          (interiorCells_nonempty 500 500 (by decide) (by decide))
          (fun p =>
            |(loopBody 500 500 (initState 500 500 reference referenceTolerance (fun _ _ => 0)
                (fun _ _ => 0))).w p.1 p.2
              - (loopBody 500 500 (initState 500 500 reference referenceTolerance (fun _ _ => 0)
                (fun _ _ => 0))).u p.1 p.2|)) :=
  ⟨by decide,
   C6_max_difference 500 500 (initState 500 500 reference referenceTolerance (fun _ _ => 0)
     (fun _ _ => 0)) (by decide) (by decide)⟩

/-- C5. The loop is left only when `diff < tolerance`: on the 3 × 3 reference grid with
tolerance `12.5` the first sweep has difference exactly `12.5`, the loop condition
`tolerance <= diff` still holds, so one execution of the body does not end the loop, a second
sweep is run, and the loop is left with `iterations = 2`. -/
theorem C5_equal_difference_continues (u0 w0 : Grid) :
    (loopBody 3 3 (initState 3 3 reference (25 / 2) u0 w0)).diff = 25 / 2 ∧
    (loopBody 3 3 (initState 3 3 reference (25 / 2) u0 w0)).iterations = 1 ∧
    main 3 3 reference (25 / 2) u0 w0 1 = none ∧
    (∀ fuel : Nat,
      Option.map LoopState.iterations (main 3 3 reference (25 / 2) u0 w0 (fuel + 2))
        = some 2) := by
  obtain ⟨_, _, hd, hit⟩ := first_sweep_three (25 / 2) u0 w0
  exact ⟨hd, hit, main_three_fuel_one (25 / 2) u0 w0 (le_refl _),
    fun fuel => main_three_two_sweeps (25 / 2) u0 w0 (by norm_num) (le_refl _) fuel⟩

/-- C7, as stated, fails: on the 3 × 3 grid with north `0` and the other walls `100` it is not
the case that `mean` is `75` and the seeded interior cell is `75`. -/
theorem C7_mean_is_not_75 :
    ¬ (boundaryMean 3 3 (initBoundary 3 3 reference (fun _ _ => 0)) = 75 ∧
       initGrid 3 3 reference (fun _ _ => 0) 1 1 = 75) := by
  rintro ⟨h, _⟩
  rw [boundaryMean_three_reference] at h
  norm_num at h

/-- C7, amended. On the 3 × 3 grid with north `0` and the other walls `100`, the three cells of
the north row (corners included) are `0` and the other five boundary cells are `100`, so `mean`
is `500/8 = 62.5`, and after seeding the single interior cell `w[1][1]` is `62.5`. -/
theorem C7_single_cell_mean (w0 : Grid) :
    boundaryMean 3 3 (initBoundary 3 3 reference w0) = 125 / 2 ∧
    initGrid 3 3 reference w0 1 1 = 125 / 2 :=
  ⟨boundaryMean_three_reference w0, (initGrid_three_reference w0).2.2.2.2⟩

/-- C8, as stated, fails: on the 3 × 3 reference grid with tolerance `0.001` the difference of
the first sweep is not `0`, and no amount of fuel makes the loop end with `iterations = 1`. -/
theorem C8_first_sweep_does_not_converge :
    (loopBody 3 3 (initState 3 3 reference referenceTolerance (fun _ _ => 0)
        (fun _ _ => 0))).diff ≠ 0 ∧
    (∀ fuel : Nat,
      Option.map LoopState.iterations
        (main 3 3 reference referenceTolerance (fun _ _ => 0) (fun _ _ => 0) fuel)
        ≠ some 1) := by
  have ht0 : (0 : ℚ) < referenceTolerance := by
    unfold referenceTolerance
    norm_num
  have ht1 : referenceTolerance ≤ 25 / 2 := by
    unfold referenceTolerance
    norm_num
  constructor
  · rw [(first_sweep_three referenceTolerance (fun _ _ => 0) (fun _ _ => 0)).2.2.1]
    norm_num
  · intro fuel
    rcases fuel with _ | _ | n
    · rw [main_zero]
      simp
    · rw [main_three_fuel_one referenceTolerance _ _ ht1]
      simp
    · rw [main_three_two_sweeps referenceTolerance _ _ ht0 ht1 n]
      simp

/-- C8, amended. On the 3 × 3 reference grid the first sweep sets `w[1][1] = 75` while
`u[1][1]` is the seed `62.5`, so its difference is `12.5`; the second sweep has difference `0`;
for `0 < tolerance < 12.5` the loop ends with `iterations = 2`, and for `12.5 < tolerance` it
ends with `iterations = 1`. -/
theorem C8_single_cell_convergence (tolerance : ℚ) (u0 w0 : Grid) (h0 : 0 < tolerance) :
    (loopBody 3 3 (initState 3 3 reference tolerance u0 w0)).w 1 1 = 75 ∧
    (loopBody 3 3 (initState 3 3 reference tolerance u0 w0)).u 1 1 = 125 / 2 ∧
    (loopBody 3 3 (initState 3 3 reference tolerance u0 w0)).diff = 25 / 2 ∧
    (loopBody 3 3 (loopBody 3 3 (initState 3 3 reference tolerance u0 w0))).diff = 0 ∧
    (tolerance < 25 / 2 → ∀ fuel : Nat,
      Option.map LoopState.iterations (main 3 3 reference tolerance u0 w0 (fuel + 2))
        = some 2) ∧
    (25 / 2 < tolerance → ∀ fuel : Nat,
      Option.map LoopState.iterations (main 3 3 reference tolerance u0 w0 (fuel + 1))
        = some 1) := by
  obtain ⟨hw, hu, hd, _⟩ := first_sweep_three tolerance u0 w0
  exact ⟨hw, hu, hd, (second_sweep_three tolerance u0 w0).1,
    fun h1 fuel => main_three_two_sweeps tolerance u0 w0 h0 (le_of_lt h1) fuel,
    fun h1 fuel => main_three_one_sweep tolerance u0 w0 h1 fuel⟩

/-- Witness for C8, amended: the tolerance `0.001` of the source. -/
theorem C8_single_cell_convergence_witness :
    (0 < referenceTolerance) ∧
    ((loopBody 3 3 (initState 3 3 reference referenceTolerance (fun _ _ => 0)
        (fun _ _ => 0))).w 1 1 = 75 ∧
     (loopBody 3 3 (initState 3 3 reference referenceTolerance (fun _ _ => 0)
        (fun _ _ => 0))).u 1 1 = 125 / 2 ∧
     (loopBody 3 3 (initState 3 3 reference referenceTolerance (fun _ _ => 0)
        (fun _ _ => 0))).diff = 25 / 2 ∧
     (loopBody 3 3 (loopBody 3 3 (initState 3 3 reference referenceTolerance (fun _ _ => 0)
        (fun _ _ => 0)))).diff = 0 ∧
     (referenceTolerance < 25 / 2 → ∀ fuel : Nat,
       Option.map LoopState.iterations
         (main 3 3 reference referenceTolerance (fun _ _ => 0) (fun _ _ => 0) (fuel + 2))
         = some 2) ∧
     (25 / 2 < referenceTolerance → ∀ fuel : Nat,
       Option.map LoopState.iterations
         (main 3 3 reference referenceTolerance (fun _ _ => 0) (fun _ _ => 0) (fuel + 1))
         = some 1)) :=
  ⟨by unfold referenceTolerance; norm_num,
   C8_single_cell_convergence referenceTolerance (fun _ _ => 0) (fun _ _ => 0)
     (by unfold referenceTolerance; norm_num)⟩

/-- C11. The loop always performs at least one sweep and counts every sweep: whatever the
tolerance and the starting contents of the arrays, the first execution of the loop body is not
guarded by a comparison with the pre-sweep state, a run that ends has executed the body `k ≥ 1`
times and ends with `iterations = k`, and after any `k` executions of the body `iterations`
is `k`. -/
theorem C11_at_least_one_sweep (M N : Nat) (b : Walls) (tolerance : ℚ) (u0 w0 : Grid)
    (fuel : Nat) (s : LoopState) (h : main M N b tolerance u0 w0 fuel = some s) :
    1 ≤ s.iterations ∧
    (∃ k : Nat, 1 ≤ k ∧ s = sweeps M N k (initState M N b tolerance u0 w0) ∧
      s.iterations = (k : Int)) ∧
    (∀ k : Nat, (sweeps M N k (initState M N b tolerance u0 w0)).iterations = (k : Int)) ∧
    (∀ n : Nat, main M N b tolerance u0 w0 (n + 1)
      = whileLoop M N tolerance n (loopBody M N (initState M N b tolerance u0 w0))) := by
  have hit : ∀ k : Nat,
      (sweeps M N k (initState M N b tolerance u0 w0)).iterations = (k : Int) := by
    intro k
    rw [sweeps_iterations]
    show (0 : Int) + (k : Int) = k
    ring
  obtain ⟨k, hk1, _, hs⟩ := main_some M N b tolerance u0 w0 fuel s h
  refine ⟨?_, ⟨k, hk1, hs, by rw [hs]; exact hit k⟩, hit,
    fun n => main_succ M N b tolerance u0 w0 n⟩
  rw [hs, hit k]
  exact_mod_cast hk1

/-- Witness for C11: the 3 × 3 reference run with the tolerance of the source, which ends after
two sweeps. -/
theorem C11_at_least_one_sweep_witness :
    main 3 3 reference referenceTolerance (fun _ _ => 0) (fun _ _ => 0) 2
      = some (loopBody 3 3 (loopBody 3 3
          (initState 3 3 reference referenceTolerance (fun _ _ => 0) (fun _ _ => 0)))) ∧
    1 ≤ (loopBody 3 3 (loopBody 3 3
          (initState 3 3 reference referenceTolerance (fun _ _ => 0) (fun _ _ => 0)))).iterations :=
  ⟨main_three_final_state referenceTolerance _ _ referenceTolerance_pos
      referenceTolerance_le 0,
   (C11_at_least_one_sweep 3 3 reference referenceTolerance (fun _ _ => 0) (fun _ _ => 0) 2 _
      (main_three_final_state referenceTolerance _ _ referenceTolerance_pos
        referenceTolerance_le 0)).1⟩

/-- C12, as stated, fails: on the reference 500 × 500 grid it is not the case that at every
iteration the north row is `0`, the south row is `100`, and the west and east columns are `100`
in every row including row `0`. -/
theorem C12_corner_is_north :
    ¬ (∀ k : Nat,
        (∀ c, c < 500 →
          (sweeps 500 500 k (initState 500 500 reference referenceTolerance (fun _ _ => 0)
            (fun _ _ => 0))).w 0 c = 0 ∧
          (sweeps 500 500 k (initState 500 500 reference referenceTolerance (fun _ _ => 0)
            (fun _ _ => 0))).w (500 - 1) c = 100) ∧
        (∀ r, r < 500 →
          (sweeps 500 500 k (initState 500 500 reference referenceTolerance (fun _ _ => 0)
            (fun _ _ => 0))).w r 0 = 100 ∧
          (sweeps 500 500 k (initState 500 500 reference referenceTolerance (fun _ _ => 0)
            (fun _ _ => 0))).w r (500 - 1) = 100)) := by
  intro h
  have h1 := ((h 0).2 0 (by decide)).1
  rw [sweeps_reference_boundary 500 500 referenceTolerance _ _ 0 0 0 (by decide)] at h1
  norm_num at h1

/-- C12, amended. With the reference walls and at least three rows and columns, after any number
of executions of the loop body the north row is `0` in every column, the south row is `100` in
every column, and the west and east columns are `100` in every row other than row `0`. -/
theorem C12_boundary_values (M N : Nat) (tolerance : ℚ) (u0 w0 : Grid) (k : Nat)
    (hM : 3 ≤ M) (hN : 3 ≤ N) :
    (∀ c, c < N →
      (sweeps M N k (initState M N reference tolerance u0 w0)).w 0 c = 0 ∧
      (sweeps M N k (initState M N reference tolerance u0 w0)).w (M - 1) c = 100) ∧
    (∀ r, 1 ≤ r → r < M →
      (sweeps M N k (initState M N reference tolerance u0 w0)).w r 0 = 100 ∧
      (sweeps M N k (initState M N reference tolerance u0 w0)).w r (N - 1) = 100) := by
  constructor
  · intro c hc
    rw [sweeps_reference_boundary M N tolerance u0 w0 k 0 c ⟨by omega, hc, Or.inl rfl⟩,
      sweeps_reference_boundary M N tolerance u0 w0 k (M - 1) c
        ⟨by omega, hc, Or.inr (Or.inl rfl)⟩,
      if_pos rfl, if_neg (by omega)]
    exact ⟨rfl, rfl⟩
  · intro r h1 h2
    rw [sweeps_reference_boundary M N tolerance u0 w0 k r 0
        ⟨h2, by omega, Or.inr (Or.inr (Or.inl rfl))⟩,
      sweeps_reference_boundary M N tolerance u0 w0 k r (N - 1)
        ⟨h2, by omega, Or.inr (Or.inr (Or.inr rfl))⟩,
      if_neg (by omega)]
    exact ⟨rfl, rfl⟩

/-- Witness for C12, amended: the reference 500 × 500 grid after seven sweeps. -/
theorem C12_boundary_values_witness :
    (3 ≤ 500) ∧
    ((∀ c, c < 500 →
      (sweeps 500 500 7 (initState 500 500 reference referenceTolerance (fun _ _ => 0)
        (fun _ _ => 0))).w 0 c = 0 ∧
      (sweeps 500 500 7 (initState 500 500 reference referenceTolerance (fun _ _ => 0)
        (fun _ _ => 0))).w (500 - 1) c = 100) ∧
     (∀ r, 1 ≤ r → r < 500 →
      (sweeps 500 500 7 (initState 500 500 reference referenceTolerance (fun _ _ => 0)
        (fun _ _ => 0))).w r 0 = 100 ∧
      (sweeps 500 500 7 (initState 500 500 reference referenceTolerance (fun _ _ => 0)
        (fun _ _ => 0))).w r (500 - 1) = 100)) :=
  ⟨by decide,
   C12_boundary_values 500 500 referenceTolerance (fun _ _ => 0) (fun _ _ => 0) 7
     (by decide) (by decide)⟩

/-- C14. No iteration cap: with tolerance `0` the loop is never left, whatever the grid size,
the wall values and the starting contents of the arrays: after any number `n` of executions
of the body the loop condition `tolerance <= diff` holds, and no amount of fuel ends the run. -/
theorem C14_zero_tolerance_never_terminates (M N : Nat) (b : Walls) (u0 w0 : Grid) :
    (∀ n : Nat, (0 : ℚ) ≤ (sweeps M N n (initState M N b 0 u0 w0)).diff) ∧
    (∀ fuel : Nat, main M N b 0 u0 w0 fuel = none) :=
  ⟨fun n => sweeps_diff_nonneg M N n _ (le_refl _),
   fun fuel => whileLoop_never_stops M N 0 (le_refl _) fuel _ (le_refl _)⟩

/-- C15. Progress-report cadence: after any `k` executions of the loop body from the program's
initial state, `iterations_print` is the smallest power of two strictly greater than
`iterations = k`; the iteration numbers reported so far are exactly the powers of two not
exceeding `k`; and the next execution of the body appends a line for iteration `k + 1` when
`k + 1` is a power of two and prints nothing otherwise (integers without overflow). -/
theorem C15_progress_cadence (M N : Nat) (b : Walls) (tolerance : ℚ) (u0 w0 : Grid) (k : Nat) :
    (sweeps M N k (initState M N b tolerance u0 w0)).iterations = (k : Int) ∧
    (∃ e : Nat,
      (sweeps M N k (initState M N b tolerance u0 w0)).iterations_print = (2 : Int) ^ e ∧
      (k : Int) < (2 : Int) ^ e ∧
      ∀ e2 : Nat, (k : Int) < (2 : Int) ^ e2 → (2 : Int) ^ e ≤ (2 : Int) ^ e2) ∧
    (∀ n : Int,
      n ∈ (sweeps M N k (initState M N b tolerance u0 w0)).output.map Prod.fst
        ↔ ∃ a : Nat, n = (2 : Int) ^ a ∧ n ≤ (k : Int)) ∧
    ((∃ a : Nat, (k : Int) + 1 = (2 : Int) ^ a) →
      (sweeps M N (k + 1) (initState M N b tolerance u0 w0)).output
        = (sweeps M N k (initState M N b tolerance u0 w0)).output
          ++ [((k : Int) + 1, (sweeps M N (k + 1) (initState M N b tolerance u0 w0)).diff)]) ∧
    ((¬ ∃ a : Nat, (k : Int) + 1 = (2 : Int) ^ a) →
      (sweeps M N (k + 1) (initState M N b tolerance u0 w0)).output
        = (sweeps M N k (initState M N b tolerance u0 w0)).output) := by
  obtain ⟨e, hp, hlt, hge, hout⟩ := sweeps_cadence M N b tolerance u0 w0 k
  have hit : (sweeps M N k (initState M N b tolerance u0 w0)).iterations = (k : Int) := by
    rw [sweeps_iterations]
    show (0 : Int) + (k : Int) = k
    ring
  have hnext : ((k : Int) + 1 = ((2 ^ e : Nat) : Int)) ↔ ∃ a : Nat, (k : Int) + 1 = (2 : Int) ^ a := by
    constructor
    · intro h
      exact ⟨e, by rw [h]; push_cast; rfl⟩
    · rintro ⟨a, ha⟩
      have ha' : k + 1 = 2 ^ a := by exact_mod_cast ha
      have h1 : ¬ (2 ^ a ≤ k) := by omega
      have h2 : ¬ (a < e) := fun h => h1 ((pow_two_le_iff_lt k e a hlt hge).2 h)
      have h3 : 2 ^ e ≤ 2 ^ a := Nat.pow_le_pow_right (by norm_num) (not_lt.mp h2)
      have h4 : k + 1 = 2 ^ e := by omega
      exact_mod_cast h4
  refine ⟨hit, ⟨e, by rw [hp]; push_cast; rfl, by exact_mod_cast hlt, ?_⟩, ?_, ?_, ?_⟩
  · intro e2 h2
    have h2' : k < 2 ^ e2 := by exact_mod_cast h2
    have h3 : e ≤ e2 := by
      by_contra hn
      have h4 : 2 ^ e2 ≤ k := (pow_two_le_iff_lt k e e2 hlt hge).2 (not_le.mp hn)
      omega
    have h5 : 2 ^ e ≤ 2 ^ e2 := Nat.pow_le_pow_right (by norm_num) h3
    exact_mod_cast h5
  · intro n
    rw [hout, List.mem_map]
    constructor
    · rintro ⟨a, ha, rfl⟩
      rw [List.mem_range] at ha
      have h1 : 2 ^ a ≤ k := (pow_two_le_iff_lt k e a hlt hge).2 ha
      exact ⟨a, by push_cast; rfl, by exact_mod_cast h1⟩
    · rintro ⟨a, rfl, ha⟩
      have h1 : 2 ^ a ≤ k := by exact_mod_cast ha
      exact ⟨a, List.mem_range.2 ((pow_two_le_iff_lt k e a hlt hge).1 h1), by push_cast; rfl⟩
  · intro h
    show (loopBody M N (sweeps M N k (initState M N b tolerance u0 w0))).output = _
    rw [loopBody_output, hit, hp, if_pos (hnext.2 h)]
    rfl
  · intro h
    show (loopBody M N (sweeps M N k (initState M N b tolerance u0 w0))).output = _
    rw [loopBody_output, hit, hp, if_neg (fun h2 => h (hnext.1 h2))]

/-- C16. Idempotence at convergence: for any state of the arrays and any tolerance, when the
difference of a sweep is at most the tolerance, the difference of the next sweep is again at
most the same tolerance (exact arithmetic). -/
theorem C16_idempotent_at_convergence (M N : Nat) (s : LoopState) (tolerance : ℚ)
    (h : (loopBody M N s).diff ≤ tolerance) :
    (loopBody M N (loopBody M N s)).diff ≤ tolerance :=
  le_trans (loopBody_diff_le M N s) h

/-- Witness for C16: the first two sweeps of the 3 × 3 reference grid with tolerance `12.5`. -/
theorem C16_idempotent_at_convergence_witness :
    (loopBody 3 3 (initState 3 3 reference (25 / 2) (fun _ _ => 0) (fun _ _ => 0))).diff
        ≤ 25 / 2 ∧
    (loopBody 3 3 (loopBody 3 3
        (initState 3 3 reference (25 / 2) (fun _ _ => 0) (fun _ _ => 0)))).diff ≤ 25 / 2 :=
  ⟨le_of_eq (first_sweep_three (25 / 2) _ _).2.2.1,
   C16_idempotent_at_convergence 3 3 _ (25 / 2)
     (le_of_eq (first_sweep_three (25 / 2) _ _).2.2.1)⟩

/-- C20. Monotone residual: for any starting state and every `k ≥ 1`, the difference computed
after sweep `k + 1` is at most the difference computed after sweep `k` (exact arithmetic). -/
theorem C20_monotone_residual (M N : Nat) (s : LoopState) (k : Nat) (hk : 1 ≤ k) :
    (sweeps M N (k + 1) s).diff ≤ (sweeps M N k s).diff := by
  obtain ⟨n, rfl⟩ : ∃ n, k = n + 1 := ⟨k - 1, by omega⟩
  exact loopBody_diff_le M N (sweeps M N n s)

/-- Witness for C20: sweeps `3` and `4` of the reference 500 × 500 run. -/
theorem C20_monotone_residual_witness :
    (1 ≤ 3) ∧
    (sweeps 500 500 (3 + 1)
        (initState 500 500 reference referenceTolerance (fun _ _ => 0) (fun _ _ => 0))).diff
      ≤ (sweeps 500 500 3
        (initState 500 500 reference referenceTolerance (fun _ _ => 0) (fun _ _ => 0))).diff :=
  ⟨by decide,
   C20_monotone_residual 500 500
     (initState 500 500 reference referenceTolerance (fun _ _ => 0) (fun _ _ => 0)) 3
     (by decide)⟩

/-- C19. Discrete maximum principle: with the reference walls and at least three rows and
columns, `mean` lies in `[0, 100]`, after any number `k` of executions of the loop body every
cell of `w` lies in `[0, 100]`, after `k + 1` executions every cell of `u` lies in `[0, 100]`,
and a sweep of a grid whose cells lie in `[0, 100]` leaves every cell in `[0, 100]`. -/
theorem C19_maximum_principle (M N : Nat) (tolerance : ℚ) (u0 w0 : Grid) (k : Nat)
    (hM : 3 ≤ M) (hN : 3 ≤ N) :
    (0 ≤ boundaryMean M N (initBoundary M N reference w0) ∧
      boundaryMean M N (initBoundary M N reference w0) ≤ 100) ∧
    (∀ r c, r < M → c < N →
      0 ≤ (sweeps M N k (initState M N reference tolerance u0 w0)).w r c ∧
      (sweeps M N k (initState M N reference tolerance u0 w0)).w r c ≤ 100) ∧
    (∀ r c, r < M → c < N →
      0 ≤ (sweeps M N (k + 1) (initState M N reference tolerance u0 w0)).u r c ∧
      (sweeps M N (k + 1) (initState M N reference tolerance u0 w0)).u r c ≤ 100) ∧
    (∀ s : LoopState, (∀ r c, r < M → c < N → 0 ≤ s.w r c ∧ s.w r c ≤ 100) →
      ∀ r c, r < M → c < N → 0 ≤ (loopBody M N s).w r c ∧ (loopBody M N s).w r c ≤ 100) := by
  have hw := sweeps_w_bounds M N (initState M N reference tolerance u0 w0) 0 100
    (fun r c hr hc => initGrid_reference_bounds M N w0 hM hN r c hr hc) k
  refine ⟨boundaryMean_reference_bounds M N w0 hM hN, hw, ?_,
    fun s hs => loopBody_w_bounds M N s 0 100 hs⟩
  intro r c hr hc
  show 0 ≤ (loopBody M N (sweeps M N k (initState M N reference tolerance u0 w0))).u r c ∧
    (loopBody M N (sweeps M N k (initState M N reference tolerance u0 w0))).u r c ≤ 100
  rw [loopBody_u_apply M N _ r c hr hc]
  exact hw r c hr hc

/-- Witness for C19: the reference 500 × 500 grid after seven sweeps. -/
theorem C19_maximum_principle_witness :
    (3 ≤ 500) ∧
    (∀ r c, r < 500 → c < 500 →
      0 ≤ (sweeps 500 500 7 (initState 500 500 reference referenceTolerance (fun _ _ => 0)
        (fun _ _ => 0))).w r c ∧
      (sweeps 500 500 7 (initState 500 500 reference referenceTolerance (fun _ _ => 0)
        (fun _ _ => 0))).w r c ≤ 100) :=
  ⟨by decide,
   (C19_maximum_principle 500 500 referenceTolerance (fun _ _ => 0) (fun _ _ => 0) 7
     (by decide) (by decide)).2.1⟩

/-- C13. Finite convergence: for at least three rows, any number of columns (three or more in
particular) and every tolerance `> 0`,
from the program's initial state there is a finite `k ≥ 1` such that the difference of sweep `k`
is at most the tolerance, every earlier sweep left the loop condition true, and the run ends in
the state after sweep `k` for every amount of fuel of at least `k` (exact arithmetic). -/
theorem C13_finite_convergence (M N : Nat) (b : Walls) (tolerance : ℚ) (u0 w0 : Grid)
    (hM : 3 ≤ M) (ht : 0 < tolerance) :
    ∃ k : Nat, 1 ≤ k ∧
      (sweeps M N k (initState M N b tolerance u0 w0)).diff ≤ tolerance ∧
      (∀ i, i < k → tolerance ≤ (sweeps M N i (initState M N b tolerance u0 w0)).diff) ∧
      (∀ fuel, k ≤ fuel →
        main M N b tolerance u0 w0 fuel
          = some (sweeps M N k (initState M N b tolerance u0 w0))) ∧
      (sweeps M N k (initState M N b tolerance u0 w0)).iterations = (k : Int) := by
  obtain ⟨n, hn⟩ := exists_sweep_diff_lt M N (initState M N b tolerance u0 w0) hM tolerance ht
  obtain ⟨j, _, hd, hbefore, hrun⟩ :=
    whileLoop_of_sweeps_lt M N tolerance (n + 1) (initState M N b tolerance u0 w0) hn
  have hj : 1 ≤ j := by
    rcases Nat.eq_zero_or_pos j with h0 | h1
    · subst h0
      exact absurd hd (lt_irrefl tolerance)
    · exact h1
  refine ⟨j, hj, le_of_lt hd, hbefore, hrun, ?_⟩
  rw [sweeps_iterations]
  show (0 : Int) + (j : Int) = j
  ring

/-- Witness for C13: the reference 500 × 500 grid with the tolerance of the source. -/
theorem C13_finite_convergence_witness :
    (3 ≤ 500 ∧ 0 < referenceTolerance) ∧
    (∃ k : Nat, 1 ≤ k ∧
      (sweeps 500 500 k (initState 500 500 reference referenceTolerance (fun _ _ => 0)
        (fun _ _ => 0))).diff ≤ referenceTolerance ∧
      (∀ i, i < k → referenceTolerance
        ≤ (sweeps 500 500 i (initState 500 500 reference referenceTolerance (fun _ _ => 0)
            (fun _ _ => 0))).diff) ∧
      (∀ fuel, k ≤ fuel →
        main 500 500 reference referenceTolerance (fun _ _ => 0) (fun _ _ => 0) fuel
          = some (sweeps 500 500 k (initState 500 500 reference referenceTolerance
              (fun _ _ => 0) (fun _ _ => 0)))) ∧
      (sweeps 500 500 k (initState 500 500 reference referenceTolerance (fun _ _ => 0)
        (fun _ _ => 0))).iterations = (k : Int)) :=
  ⟨⟨by decide, referenceTolerance_pos⟩,
   C13_finite_convergence 500 500 reference referenceTolerance (fun _ _ => 0) (fun _ _ => 0)
     (by decide) referenceTolerance_pos⟩

/-- C17. The max-difference reduction does not depend on how the work is split: whenever the
chunks of rows handed to the threads cover exactly the interior rows (as every partition of the
interior rows does) and the threads pass through the critical section in any order `merged` of
the chunks, the shared `diff` ends as the single-threaded maximum over the interior cells. -/
theorem C17_reduction_independent_of_split (M N : Nat) (u w : Grid)
    (chunks merged : List (List Nat))
    (hcover : ∀ i, (∃ rows ∈ chunks, i ∈ rows) ↔ (1 ≤ i ∧ i ≤ M - 2))
    (horder : List.Perm merged chunks) :
    parallelMaxDifference N u w merged = maxDifference M N u w := by
  obtain ⟨p1, p2, p3⟩ := parallel_fold N u w merged 0 (le_refl _)
  have q1 : 0 ≤ parallelMaxDifference N u w merged := p1
  have q2 : ∀ rows ∈ merged, ∀ i ∈ rows, ∀ j, 1 ≤ j → j < N - 1 →
      |w i j - u i j| ≤ parallelMaxDifference N u w merged := p2
  have q3 : parallelMaxDifference N u w merged = 0 ∨
      ∃ rows ∈ merged, ∃ i ∈ rows, ∃ j, 1 ≤ j ∧ j < N - 1 ∧
        parallelMaxDifference N u w merged = |w i j - u i j| := p3
  apply le_antisymm
  · rcases q3 with h | ⟨rows, hr, i, hi, j, hj1, hj2, h⟩
    · rw [h]
      exact maxDifference_nonneg M N u w
    · rw [h]
      have hi2 := (hcover i).1 ⟨rows, (List.Perm.mem_iff horder).1 hr, hi⟩
      exact le_maxDifference M N u w i j ⟨hi2.1, hi2.2, hj1, by omega⟩
  · apply maxDifference_le M N u w _ q1
    intro i j hint
    unfold isInterior at hint
    obtain ⟨rows, hr, hi⟩ := (hcover i).2 ⟨hint.1, hint.2.1⟩
    exact q2 rows ((List.Perm.mem_iff horder).2 hr) i hi j hint.2.2.1 (by omega)

/-- Witness for C17: a 5 × 5 grid whose three interior rows are split into the chunks `[1, 2]`
and `[3]`, the second thread entering the critical section first. -/
theorem C17_reduction_independent_of_split_witness :
    ((∀ i, (∃ rows ∈ [[1, 2], [3]], i ∈ rows) ↔ (1 ≤ i ∧ i ≤ 5 - 2)) ∧
      List.Perm [[3], [1, 2]] [[1, 2], [3]]) ∧
    parallelMaxDifference 5 (fun _ _ => 0) (fun i j => (i : ℚ) * (j : ℚ)) [[3], [1, 2]]
      = maxDifference 5 5 (fun _ _ => 0) (fun i j => (i : ℚ) * (j : ℚ)) :=
  ⟨⟨by intro i; simp; omega, List.Perm.swap [1, 2] [3] []⟩,
   C17_reduction_independent_of_split 5 5 (fun _ _ => 0) (fun i j => (i : ℚ) * (j : ℚ))
     [[1, 2], [3]] [[3], [1, 2]] (by intro i; simp; omega) (List.Perm.swap [1, 2] [3] [])⟩

/-- C18. Determinism of the Jacobi update: once the copy into `u` is complete, carrying out the
stencil assignments in any order `cells` that covers exactly the interior cells (whatever the
assignment of rows to threads and the interleaving of the threads) gives the same `w` as the
sequential row-major sweep of the loop body. -/
theorem C18_sweep_independent_of_order (M N : Nat) (s : LoopState) (cells : List (Nat × Nat))
    (hcells : ∀ i j, (i, j) ∈ cells ↔ isInterior M N i j) :
    stencilUpdateInOrder (copyCurrentIntoPrevious M N s.w s.u) s.w cells
        = stencilUpdate M N (copyCurrentIntoPrevious M N s.w s.u) s.w ∧
    stencilUpdateInOrder (copyCurrentIntoPrevious M N s.w s.u) s.w cells
        = (loopBody M N s).w := by
  have h : stencilUpdateInOrder (copyCurrentIntoPrevious M N s.w s.u) s.w cells
      = stencilUpdate M N (copyCurrentIntoPrevious M N s.w s.u) s.w := by
    funext r c
    rw [stencilUpdateInOrder_apply, stencilUpdate_apply]
    by_cases hint : isInterior M N r c
    · have hi2 := hint
      unfold isInterior at hi2
      rw [if_pos ((hcells r c).2 hint), if_pos (by omega)]
    · have hn : ¬ (1 ≤ r ∧ r < M - 1 ∧ 1 ≤ c ∧ c < N - 1) := by
        unfold isInterior at hint
        omega
      rw [if_neg (fun hm => hint ((hcells r c).1 hm)), if_neg hn]
  exact ⟨h, by rw [h, loopBody_w]⟩

/-- Witness for C18: the four interior cells of a 4 × 4 reference grid, updated in the order
`(2,2)`, `(1,1)`, `(2,1)`, `(1,2)`. -/
theorem C18_sweep_independent_of_order_witness :
    (∀ i j, (i, j) ∈ [(2, 2), (1, 1), (2, 1), (1, 2)] ↔ isInterior 4 4 i j) ∧
    stencilUpdateInOrder
        (copyCurrentIntoPrevious 4 4
          (initState 4 4 reference referenceTolerance (fun _ _ => 0) (fun _ _ => 0)).w
          (initState 4 4 reference referenceTolerance (fun _ _ => 0) (fun _ _ => 0)).u)
        (initState 4 4 reference referenceTolerance (fun _ _ => 0) (fun _ _ => 0)).w
        [(2, 2), (1, 1), (2, 1), (1, 2)]
      = (loopBody 4 4
          (initState 4 4 reference referenceTolerance (fun _ _ => 0) (fun _ _ => 0))).w :=
  ⟨by intro i j; simp [isInterior]; omega,
   (C18_sweep_independent_of_order 4 4
     (initState 4 4 reference referenceTolerance (fun _ _ => 0) (fun _ _ => 0))
     [(2, 2), (1, 1), (2, 1), (1, 2)] (by intro i j; simp [isInterior]; omega)).2⟩

end HeatEquation
